import Mathlib

/-!
# Lion Shell (`shell.c`): a shallow embedding

The C program is embedded function by function.  A C `char` is a Lean `Char`,
a C string is the list of characters in front of the first NUL of its buffer,
and every heap object is a list of fixed length: an access outside it is
undefined behaviour in C and is `none` here.  The bytes of a block handed out by
`malloc` are not determined by the program, so they are a parameter (`junk`);
`calloc` blocks are zero filled.
-/

namespace Shell

/-! ## Constants and types -/

/-- `#define MAX 1000`: maximum buffer size for each line. -/
def MAX : Nat := 1000

/-- `#define MAXTOKS 25`: maximum number of tokens. -/
def MAXTOKS : Nat := 25

/-- `#define MAXTOKSIZE 75`: maximum characters in a token. -/
def MAXTOKSIZE : Nat := 75

/-- The NUL byte that ends a C string. -/
def NUL : Char := Char.ofNat 0

/-- `enum status_value`. -/
inductive status_value where
  | NORMAL
  | EOF_FOUND
  | INPUT_OVERFLOW
  | OVERSIZE_TOKEN
  | TOO_MANY_TOKENS
  deriving DecidableEq

/-- A heap object of `char`: its length is the size that was allocated. -/
abbrev Buf := List Char

/-- `struct command`: `tok` is the array of `MAXTOKS+1` pointers (`none` is the
null pointer), `count` and `status` are the two `int` members. -/
structure command where
  tok : List (Option Buf)
  count : Nat
  status : status_value
  deriving DecidableEq

/-! ## Memory primitives -/

/-- `isspace` of `<ctype.h>` in the C locale. -/
def isspace (c : Char) : Bool :=
  c = ' ' || c = '\t' || c = '\n' || c = Char.ofNat 11 || c = Char.ofNat 12 || c = '\r'

/-- `calloc (n, sizeof (char))`: `n` zero bytes. -/
def calloc (n : Nat) : Buf := List.replicate n NUL

/-- `malloc (n * sizeof (char))`: `n` bytes whose values the program does not
choose; `init i` is the value found at offset `i`. -/
def malloc (n : Nat) (init : Nat → Char) : Buf := (List.range n).map init

/-- `b[i] = c` on a heap object: `none` when `i` is outside the object. -/
def poke (b : Buf) (i : Nat) (c : Char) : Option Buf :=
  if i < b.length then some (b.set i c) else none

/-- The C string held by a buffer: the characters in front of the first NUL,
`none` when the buffer holds no NUL (a reader would run off its end). -/
def cstring (b : Buf) : Option (List Char) :=
  if NUL ∈ b then some (b.takeWhile (fun c => c != NUL)) else none

/-- `tok[t][i] = c`: the pointer `tok[t]` has to be there and non-null and the
write has to fall inside the block it points to. -/
def storeTok (tok : List (Option Buf)) (t i : Nat) (c : Char) : Option (List (Option Buf)) :=
  match tok.get? t with
  | some (some b) =>
    match poke b i c with
    | some b' => some (tok.set t (some b'))
    | none => none
  | _ => none

/-! ## `read_command` -/

/-- The characters `fgets` stores for a request of `n` more characters: it stops
after a newline, at the end of the stream, or when `n` characters are stored. -/
def fgets_line : Nat → List Char → List Char
  | 0, _ => []
  | _, [] => []
  | n + 1, c :: cs => if c = '\n' then [c] else c :: fgets_line n cs

/-- `fgets (buff, size, stdin)`: `none` is the NULL it returns at end of input
(nothing is stored then); otherwise the stored characters and the rest of the
stream. -/
def fgets (size : Nat) (stdin : List Char) : Option (List Char × List Char) :=
  match stdin with
  | [] => none
  | _ => some (fgets_line (size - 1) stdin, stdin.drop (fgets_line (size - 1) stdin).length)

/-- The variables of the parsing loop of `read_command`: the token array, the
token index `t`, the index `ti` inside the token, `n->count` and the global
`pipe_index`. -/
structure RState where
  tok : List (Option Buf)
  t : Nat
  ti : Nat
  count : Nat
  pipe_index : Nat
  deriving DecidableEq

/-- The `for` loop of `read_command` (lines 103-155) over the characters of
`buff` from index `j` on; the list ends where `buff` holds its NUL, so
`buff[j+1] != 0` is "the rest is not empty".  The result is the state at the
end together with the status of an early `return 0`, if one was taken; `none`
is a write outside a token buffer. -/
def read_loop (junk : Nat → Nat → Char) : List Char → RState → Option (RState × Option status_value)
  | [], s => some (s, none)
  | c :: rest, s =>
    if !isspace c then
      match storeTok s.tok s.t s.ti c with
      | none => none
      | some tok1 =>
        read_loop junk rest
          { s with tok := tok1, ti := s.ti + 1,
                   pipe_index := if c = '|' then s.t else s.pipe_index }
    else if s.ti = 0 then
      read_loop junk rest s
    else if s.ti + 1 < MAXTOKSIZE then
      match storeTok s.tok s.t (s.ti + 1) NUL with
      | none => none
      | some tok1 =>
        if s.t + 1 < MAXTOKS && !rest.isEmpty then
          read_loop junk rest
            { s with tok := tok1.set (s.t + 1) (some (malloc (MAXTOKSIZE + 1) (junk (s.t + 1)))),
                     t := s.t + 1, ti := 0, count := s.count + 1 }
        else if s.t + 1 = MAXTOKS && !rest.isEmpty then
          some ({ s with tok := tok1, ti := s.ti + 1 }, some status_value.TOO_MANY_TOKENS)
        else
          read_loop junk rest { s with tok := tok1, t := s.t + 1, ti := 0, count := s.count + 1 }
    else
      some ({ s with ti := s.ti + 1 }, some status_value.OVERSIZE_TOKEN)

/-- What `read_command` leaves behind: its return value, the command it filled
in, the global `pipe_index` and the unread rest of standard input. -/
structure ReadResult where
  ret : Nat
  cmd : command
  pipe_index : Nat
  stdin : List Char
  deriving DecidableEq

/-- The state in front of the loop: `tok` is a zeroed array of `MAXTOKS+1`
pointers, `tok[0]` a zeroed block of `MAXTOKSIZE+1` bytes, all counters 0. -/
def read_init : RState :=
  { tok := some (calloc (MAXTOKSIZE + 1)) :: List.replicate MAXTOKS none,
    t := 0, ti := 0, count := 0, pipe_index := 0 }

/-- `read_command`.  `stale` is the string found in the uninitialised array
`buff` (it is what the loop parses when `fgets` stores nothing), `junk t` the
initial bytes of the block `malloc` returns for `tok[t]`, `stdin` the unread
input.  `none` is undefined behaviour: a write outside a token buffer, or the
read of `buff[-1]` when the stored line is the empty string. -/
def read_command (stale : List Char) (junk : Nat → Nat → Char) (stdin : List Char) :
    Option ReadResult :=
  let val := fgets MAX stdin
  let buff : List Char :=
    match val with
    | some (line, _) => line.takeWhile (fun c => c != NUL)
    | none => stale.takeWhile (fun c => c != NUL)
  let unread : List Char :=
    match val with
    | some (_, more) => more
    | none => stdin
  match read_loop junk buff read_init with
  | none => none
  | some (s, some st) =>
    some { ret := 0, cmd := { tok := s.tok, count := s.count, status := st },
           pipe_index := s.pipe_index, stdin := unread }
  | some (s, none) =>
    if val.isNone then
      some { ret := 0, cmd := { tok := s.tok, count := s.count, status := status_value.EOF_FOUND },
             pipe_index := s.pipe_index, stdin := unread }
    else
      match buff.getLast? with
      | none => none
      | some last =>
        if last != '\n' then
          some { ret := 0,
                 cmd := { tok := s.tok, count := s.count, status := status_value.INPUT_OVERFLOW },
                 pipe_index := s.pipe_index, stdin := unread }
        else
          some { ret := 1, cmd := { tok := s.tok, count := s.count, status := status_value.NORMAL },
                 pipe_index := s.pipe_index, stdin := unread }

/-- The strings of `tok[0 .. n)` as a reader of the array sees them; `none`
when one of the `n` pointers is null, missing, or its block holds no NUL. -/
def tokens (tok : List (Option Buf)) (n : Nat) : Option (List (List Char)) :=
  (List.range n).mapM (fun i =>
    match tok.get? i with
    | some (some b) => cstring b
    | _ => none)

/-- A heap in which every byte `malloc` hands out is zero. -/
def zeroJunk : Nat → Nat → Char := fun _ _ => NUL

/-- A heap in which every byte `malloc` hands out is the letter `X`. -/
def dirtyJunk : Nat → Nat → Char := fun _ _ => 'X'

/-! ## Copying strings into fresh blocks -/

/-- The loop `while (src[k] != 0) dst[i++] = src[k++]` followed by the write
`dst[i] = c`: the characters `s` go to `dst[i ..]` and `c` goes behind them. -/
def poke_string (dst : Buf) (i : Nat) (s : List Char) (c : Char) : Option Buf :=
  match s with
  | [] => poke dst i c
  | x :: xs =>
    match poke dst i x with
    | none => none
    | some d => poke_string d (i + 1) xs c

/-- One round of the copying loops of `leftPipe` and `rightPipe`:
`cmd[i] = malloc (size)`, then the string of `src` is copied and terminated. -/
def copy_token (size : Nat) (init : Nat → Char) (src : Option (Option Buf)) : Option Buf :=
  match src with
  | some (some b) =>
    match cstring b with
    | none => none
    | some s => poke_string (malloc size init) 0 s NUL
  | _ => none

/-! ## `rightPipe` and `leftPipe` -/

/-- `rightPipe (tok, num)` with the global `pipe_index`: an array of
`num - (pipe_index+1)` pointers (none when that is not positive), each to a
50-byte block holding a copy of `tok[pipe_index+1+i]`.  The array has no
terminating null pointer. -/
def rightPipe (junk : Nat → Nat → Char) (pipe_index : Nat) (tok : List (Option Buf)) (num : Nat) :
    Option (List Buf) :=
  (List.range (num - (pipe_index + 1))).mapM
    (fun i => copy_token 50 (junk i) (tok.get? (pipe_index + 1 + i)))

/-- `leftPipe (tok)` with the global `pipe_index`: an array of `pipe_index`
pointers, each to a block of `MAXTOKSIZE` bytes holding a copy of `tok[i]`. -/
def leftPipe (junk : Nat → Nat → Char) (pipe_index : Nat) (tok : List (Option Buf)) :
    Option (List Buf) :=
  (List.range pipe_index).mapM (fun i => copy_token MAXTOKSIZE (junk i) (tok.get? i))

/-- The strings of an array of blocks. -/
def strings (cmd : List Buf) : Option (List (List Char)) := cmd.mapM cstring

/-! ## `getPaths` -/

/-- The variables of `getPaths`: the block being filled, its index `bi`, the
entries of `*paths` written so far (`pi` is their number) and `count`. -/
structure PState where
  buffer : Buf
  bi : Nat
  paths : List Buf
  count : Nat
  deriving DecidableEq

/-- The step `buffer[++bi] = 0; (*paths)[pi++] = buffer; count++` that
`getPaths` takes at a colon and once more behind the loop; `slots` is the
number of pointers the caller allocated for `*paths`. -/
def addPath (slots : Nat) (s : PState) : Option PState :=
  match poke s.buffer (s.bi + 1) NUL with
  | none => none
  | some b =>
    if s.paths.length < slots then
      some { s with buffer := b, bi := s.bi + 1, paths := s.paths ++ [b], count := s.count + 1 }
    else none

/-- The `while` loop of `getPaths` over the characters of `path`. -/
def getPaths_loop (junk : Nat → Nat → Char) (slots : Nat) : List Char → PState → Option PState
  | [], s => some s
  | c :: rest, s =>
    if c = ':' then
      match addPath slots s with
      | none => none
      | some s1 => getPaths_loop junk slots rest
          { s1 with buffer := malloc 50 (junk s1.paths.length), bi := 0 }
    else
      match poke s.buffer s.bi c with
      | none => none
      | some b => getPaths_loop junk slots rest { s with buffer := b, bi := s.bi + 1 }

/-- `getPaths (&paths, path)`: the returned count and the entries written to
`*paths`, an array of `slots` pointers (`main` allocates 50).  The first block
has 25 bytes, the later ones 50; `junk k` gives the initial bytes of the block
of entry `k`.  `none` is a write outside a block or outside the array. -/
def getPaths (junk : Nat → Nat → Char) (slots : Nat) (path : List Char) :
    Option (Nat × List Buf) :=
  match getPaths_loop junk slots (path.takeWhile (fun c => c != NUL))
      { buffer := malloc 25 (junk 0), bi := 0, paths := [], count := 0 } with
  | none => none
  | some s =>
    match addPath slots s with
    | none => none
    | some s1 => some (s1.count, s1.paths)

/-- Splitting a string on `':'`, every segment kept: the result the
specification promises for a PATH string. -/
def splitColon : List Char → List (List Char)
  | [] => [[]]
  | c :: rest =>
    if c = ':' then [] :: splitColon rest
    else
      match splitColon rest with
      | [] => [[c]]
      | seg :: segs => (c :: seg) :: segs

/-! ## `execCmd` -/

/-- The argument strings `execve` reads from `argv`: the strings in front of
the first null pointer; `none` when the array has no null pointer or a block
has no NUL. -/
def argvStrings : List (Option Buf) → Option (List (List Char))
  | [] => none
  | none :: _ => some []
  | some b :: rest =>
    match cstring b, argvStrings rest with
    | some s, some ss => some (s :: ss)
    | _, _ => none

/-- One call `execve (cmd, tok, 0)`: the file name and the argument strings. -/
structure Attempt where
  file : List Char
  argv : List (List Char)
  deriving DecidableEq

/-- How `execCmd` ends, with the `execve` calls it made: the process image was
replaced by the last call, or the function returned to its caller, or it ran
into undefined behaviour (an access outside a block or an array). -/
inductive Launch where
  | replaced (attempts : List Attempt)
  | returned (attempts : List Attempt)
  | undefined (attempts : List Attempt)
  deriving DecidableEq

/-- The file name `execCmd` builds for one directory: `paths[i]`, a slash and
`tok[0]` are copied into a zeroed block of `MAXTOKSIZE+25` bytes and a NUL is
put behind them; `none` when a write leaves the block. -/
def candidate (dir name : List Char) : Option (List Char) :=
  match poke_string (calloc (MAXTOKSIZE + 25)) 0 dir '/' with
  | none => none
  | some c1 =>
    match poke_string c1 (dir.length + 1) name NUL with
    | none => none
    | some c2 => cstring c2

/-- The `for` loop of `execCmd` from index `i` with `n` rounds left;
`execve file argv` tells whether that call succeeds. -/
def execCmd_loop (execve : List Char → List (List Char) → Bool)
    (paths : List Buf) (tok : List (Option Buf)) : Nat → Nat → List Attempt → Launch
  | 0, _, done => Launch.returned done
  | n + 1, i, done =>
    match paths.get? i, tok.get? 0 with
    | some p, some (some t0) =>
      match cstring p, cstring t0 with
      | some dir, some name =>
        match candidate dir name, argvStrings tok with
        | some file, some argv =>
          if execve file argv then Launch.replaced (done ++ [⟨file, argv⟩])
          else execCmd_loop execve paths tok n (i + 1) (done ++ [⟨file, argv⟩])
        | _, _ => Launch.undefined done
      | _, _ => Launch.undefined done
    | _, _ => Launch.undefined done

/-- `execCmd (paths, tok)` with the global `num_paths`. -/
def execCmd (execve : List Char → List (List Char) → Bool) (num_paths : Nat)
    (paths : List Buf) (tok : List (Option Buf)) : Launch :=
  execCmd_loop execve paths tok num_paths 0 []

/-! ## Processes: `run_pipe`, `run_cmd` and `main` -/

/-- The two descriptors `pipe (A)` fills in. -/
inductive Fd where
  | A0
  | A1
  deriving DecidableEq

/-- What a process does to the world outside it, in program order.  `exit`
stands for `exit` and for `_exit`; `execCmd` marks the call of the launcher. -/
inductive Event where
  | printf (format : String) (args : List (List Char))
  | perror (msg : String)
  | pipe
  | fork
  | dup2 (fd : Fd) (target : Nat)
  | close (fd : Fd)
  | wait
  | chdir (dir : Option (List Char))
  | execCmd
  | execve (file : List Char) (argv : List (List Char))
  | exit (code : Nat)
  deriving DecidableEq

/-- How a function of the shell ends in the process that runs it. -/
inductive End where
  | returned
  | exited (code : Nat)
  | replaced
  | undefined
  deriving DecidableEq

/-- `EXIT_FAILURE` of `<stdlib.h>`. -/
def EXIT_FAILURE : Nat := 1

/-- `const char exitKey[] = "exit"`. -/
def exitKey : List Char := ['e', 'x', 'i', 't']

/-- `const char changedir[] = "cd"`. -/
def changedir : List Char := ['c', 'd']

/-- `const char hack[] = "hack"`. -/
def hack : List Char := ['h', 'a', 'c', 'k']

/-- `char telnet1[] = "/usr/bin/telnet"`, the array with its NUL. -/
def telnet1 : Buf := "/usr/bin/telnet".toList ++ [NUL]

/-- `char telnet2[] = "towel.blinkenlights.nl"`, the array with its NUL. -/
def telnet2 : Buf := "towel.blinkenlights.nl".toList ++ [NUL]

/-- Everything the program does not decide itself.  Iterations of the loop of
`main` are numbered; `stale k` is the string in `buff` when iteration `k`
calls `read_command`, `junk k` and `pipe_junk k` the bytes `malloc` hands out
to `read_command` and to `leftPipe`/`rightPipe`, `pipe_ret k` what `pipe`
returns, `fork_ret k j` what call `j` of `fork` returns to the process that is
followed (0 in a child), `execve` whether an `execve` succeeds and `chdir cwd
dir` the working directory after a successful `chdir (dir)`. -/
structure World where
  username : List Char
  stale : Nat → List Char
  junk : Nat → Nat → Nat → Char
  pipe_junk : Nat → Nat → Nat → Char
  pipe_ret : Nat → Int
  fork_ret : Nat → Nat → Int
  execve : List Char → List (List Char) → Bool
  chdir : List Char → List Char → Option (List Char)

/-- The events of the `execve` calls of a launch. -/
def attemptEvents (l : Launch) : List Event :=
  match l with
  | Launch.replaced a => a.map (fun x => Event.execve x.file x.argv)
  | Launch.returned a => a.map (fun x => Event.execve x.file x.argv)
  | Launch.undefined a => a.map (fun x => Event.execve x.file x.argv)

/-- A child of `run_pipe` from its `execCmd` call on: `msg` is the text it
hands to `perror` when the launcher returns. -/
def pipe_child (w : World) (num_paths : Nat) (paths : List Buf) (cmd : List Buf) (msg : String) :
    List Event × End :=
  match execCmd w.execve num_paths paths (cmd.map some) with
  | Launch.replaced a => (Event.execCmd :: attemptEvents (Launch.replaced a), End.replaced)
  | Launch.returned a =>
    (Event.execCmd :: attemptEvents (Launch.returned a) ++ [Event.perror msg, Event.exit 1],
      End.exited 1)
  | Launch.undefined a => (Event.execCmd :: attemptEvents (Launch.undefined a), End.undefined)

/-- `run_pipe (c, paths)` in iteration `k`, followed in the process that sees
the `fork` results `fork_ret k 0` and `fork_ret k 1`. -/
def run_pipe (w : World) (k : Nat) (num_paths : Nat) (paths : List Buf) (pipe_index : Nat)
    (c : command) : List Event × End :=
  if w.fork_ret k 0 = 0 then
    match leftPipe (w.pipe_junk k) pipe_index c.tok with
    | none => ([Event.pipe, Event.fork], End.undefined)
    | some cmd =>
      let r := pipe_child w num_paths paths cmd "Error: Pipe in"
      ([Event.pipe, Event.fork, Event.dup2 Fd.A1 1, Event.close Fd.A0, Event.close Fd.A1] ++ r.1,
        r.2)
  else if w.fork_ret k 0 < 0 then
    ([Event.pipe, Event.fork, Event.perror "Error forking in pipe", Event.exit EXIT_FAILURE],
      End.exited EXIT_FAILURE)
  else if w.fork_ret k 1 = 0 then
    match rightPipe (w.pipe_junk k) pipe_index c.tok c.count with
    | none => ([Event.pipe, Event.fork, Event.fork], End.undefined)
    | some cmd =>
      let r := pipe_child w num_paths paths cmd "Error: Pipe out"
      ([Event.pipe, Event.fork, Event.fork, Event.dup2 Fd.A0 0, Event.close Fd.A0,
          Event.close Fd.A1] ++ r.1, r.2)
  else if w.fork_ret k 1 < 0 then
    ([Event.pipe, Event.fork, Event.fork, Event.perror "Error forking second process",
        Event.exit EXIT_FAILURE], End.exited EXIT_FAILURE)
  else
    ([Event.pipe, Event.fork, Event.fork, Event.close Fd.A0, Event.close Fd.A1, Event.wait,
        Event.wait], End.returned)

/-- The function `run_cmd (tok, paths)` of the source (the name is taken in
Lean) in iteration `k`, followed in the process that sees
the `fork` result `fork_ret k 0`; the third component is the working directory
of that process afterwards. -/
def runCmd (w : World) (k : Nat) (num_paths : Nat) (paths : List Buf) (tok : List (Option Buf))
    (cwd : List Char) : List Event × End × List Char :=
  if w.fork_ret k 0 < 0 then
    ([Event.fork, Event.perror "fork error.", Event.exit EXIT_FAILURE], End.exited EXIT_FAILURE, cwd)
  else
    match tok.get? 0 with
    | some (some t0) =>
      match cstring t0 with
      | none => ([Event.fork], End.undefined, cwd)
      | some name =>
        if w.fork_ret k 0 = 0 then
          if name = hack then
            if 1 < tok.length then
              match argvStrings ((tok.set 0 (some telnet1)).set 1 (some telnet2)) with
              | none => ([Event.fork], End.undefined, cwd)
              | some argv =>
                if w.execve "/usr/bin/telnet".toList argv then
                  ([Event.fork, Event.execve "/usr/bin/telnet".toList argv], End.replaced, cwd)
                else
                  ([Event.fork, Event.execve "/usr/bin/telnet".toList argv,
                      Event.perror "telnet error\n"], End.returned, cwd)
            else ([Event.fork], End.undefined, cwd)
          else
            match execCmd w.execve num_paths paths tok with
            | Launch.replaced a =>
              (Event.fork :: Event.execCmd :: attemptEvents (Launch.replaced a), End.replaced, cwd)
            | Launch.returned a =>
              (Event.fork :: Event.execCmd :: attemptEvents (Launch.returned a) ++
                [Event.printf "%s: Command not found.\n" [name], Event.exit 1], End.exited 1, cwd)
            | Launch.undefined a =>
              (Event.fork :: Event.execCmd :: attemptEvents (Launch.undefined a), End.undefined, cwd)
        else if name = changedir then
          match tok.get? 1 with
          | some none => ([Event.fork, Event.chdir none, Event.wait], End.returned, cwd)
          | some (some t1) =>
            match cstring t1 with
            | none => ([Event.fork], End.undefined, cwd)
            | some dir =>
              ([Event.fork, Event.chdir (some dir), Event.wait], End.returned,
                match w.chdir cwd dir with
                | some d => d
                | none => cwd)
          | none => ([Event.fork], End.undefined, cwd)
        else ([Event.fork, Event.wait], End.returned, cwd)
    | _ => ([Event.fork], End.undefined, cwd)

/-- The text `main` prints for a status when `read_command` returned 0. -/
def status_message (s : status_value) : String :=
  match s with
  | status_value.EOF_FOUND => "\nError: EOF_FOUND\n"
  | status_value.INPUT_OVERFLOW => "Error: INPUT_OVERFLOW\n"
  | status_value.OVERSIZE_TOKEN => "Error: OVERSIZE_TOKEN\n"
  | status_value.TOO_MANY_TOKENS => "Error: TOO_MANY_TOKENS\n"
  | status_value.NORMAL => "Unknown Error!\n"

/-- The arms of the `if` chain in the loop of `main` (lines 450-482). -/
inductive Branch where
  | again
  | report (msg : String)
  | quit
  | pipeline
  | single
  deriving DecidableEq

/-- Which arm `main` takes after `read_command` returned `read`:
`!Tommy.tok[0][0]` is tested first, then `!read`, then the exit keyword, then
the global `pipe_index`.  `none` when `tok[0]` cannot be read. -/
def main_branch (read : Nat) (c : command) (pipe_index : Nat) : Option Branch :=
  match c.tok.get? 0 with
  | some (some t0) =>
    match t0.get? 0 with
    | none => none
    | some first =>
      if first = NUL then some Branch.again
      else if read = 0 then some (Branch.report (status_message c.status))
      else
        match cstring t0 with
        | none => none
        | some name =>
          if name = exitKey then some Branch.quit
          else if pipe_index ≠ 0 then some Branch.pipeline
          else some Branch.single
  | _ => none

/-- Where the loop of `main` stands: still looping, with the unread input and
the working directory, or over. -/
inductive Ending where
  | running (stdin : List Char) (cwd : List Char)
  | ended (how : End)
  deriving DecidableEq

/-- After a call made from the loop: a call that returns lets the loop go on,
any other end is the end of the process. -/
def resume (e : End) (stdin cwd : List Char) : Ending :=
  match e with
  | End.returned => Ending.running stdin cwd
  | other => Ending.ended other

/-- One pass through the body of `while (1)` in `main`, iteration `k`: the
prompt, `read_command`, and the arm that is taken. -/
def main_iteration (w : World) (num_paths : Nat) (paths : List Buf) (k : Nat)
    (stdin cwd : List Char) : List Event × Ending :=
  match read_command (w.stale k) (w.junk k) stdin with
  | none => ([Event.printf "%s%% " [w.username]], Ending.ended End.undefined)
  | some r =>
    match main_branch r.ret r.cmd r.pipe_index with
    | none => ([Event.printf "%s%% " [w.username]], Ending.ended End.undefined)
    | some Branch.again => ([Event.printf "%s%% " [w.username]], Ending.running r.stdin cwd)
    | some (Branch.report msg) =>
      ([Event.printf "%s%% " [w.username], Event.printf msg []], Ending.running r.stdin cwd)
    | some Branch.quit =>
      ([Event.printf "%s%% " [w.username], Event.exit 1], Ending.ended (End.exited 1))
    | some Branch.pipeline =>
      (Event.printf "%s%% " [w.username] :: (run_pipe w k num_paths paths r.pipe_index r.cmd).1,
        resume (run_pipe w k num_paths paths r.pipe_index r.cmd).2 r.stdin cwd)
    | some Branch.single =>
      (Event.printf "%s%% " [w.username] :: (runCmd w k num_paths paths r.cmd.tok cwd).1,
        resume (runCmd w k num_paths paths r.cmd.tok cwd).2.1 r.stdin
          (runCmd w k num_paths paths r.cmd.tok cwd).2.2)

/-- The loop `while (1)` of `main` from iteration `k` on, cut off after `fuel`
iterations: the events so far and where the loop stands. -/
def main_loop (w : World) (num_paths : Nat) (paths : List Buf) :
    Nat → Nat → List Char → List Char → List Event × Ending
  | 0, _, stdin, cwd => ([], Ending.running stdin cwd)
  | fuel + 1, k, stdin, cwd =>
    match main_iteration w num_paths paths k stdin cwd with
    | (ev, Ending.running stdin1 cwd1) =>
      (ev ++ (main_loop w num_paths paths fuel (k + 1) stdin1 cwd1).1,
        (main_loop w num_paths paths fuel (k + 1) stdin1 cwd1).2)
    | (ev, Ending.ended how) => (ev, Ending.ended how)

/-- A world for examples: user `u`, empty stale buffer, zeroed heap, every
`fork` returning the child's process id 7 to the parent, no `execve` and no
`chdir` succeeding. -/
def quietWorld : World :=
  { username := ['u'], stale := fun _ => [], junk := fun _ => zeroJunk,
    pipe_junk := fun _ => zeroJunk, pipe_ret := fun _ => 0, fork_ret := fun _ _ => 7,
    execve := fun _ _ => false, chdir := fun _ _ => none }

/-- The first byte of `tok[0]`, the byte `main` tests with `!Tommy.tok[0][0]`. -/
def first_byte (c : command) : Option Char :=
  match c.tok.get? 0 with
  | some (some t0) => t0.get? 0
  | _ => none

/-- A token array whose `tok[0]` points to a block of at least one byte. -/
def HeadBlock (tok : List (Option Buf)) : Prop :=
  ∃ b, tok.get? 0 = some (some b) ∧ 0 < b.length

/-- The prompt `printf ("%s%% ", username)` at the top of the loop of `main`. -/
def prompt (w : World) : Event := Event.printf "%s%% " [w.username]

/-- An event that creates no process and ends none: output only. -/
def isOutput (e : Event) : Bool :=
  match e with
  | Event.printf _ _ => true
  | Event.perror _ => true
  | _ => false

/-- A line of `n` words `a`, each followed by one blank, then `tail`. -/
def wordsLine (n : Nat) (tail : List Char) : List Char :=
  (List.replicate n ['a', ' ']).flatten ++ tail

/-- The string of `tok[0]`: the command name that `main` compares with the
exit keyword and `run_cmd` with `hack` and `cd`. -/
def first_token (c : command) : Option (List Char) :=
  match c.tok.get? 0 with
  | some (some t0) => cstring t0
  | _ => none

/-- The line `fgets` stores in `buff` when `read_command` is called on the
input `stdin`. -/
def stored_line (stdin : List Char) : List Char := fgets_line (MAX - 1) stdin

/-- The words of a line from a position on, `cur` being the part of the
current word already passed: maximal runs of characters that are not white
space. -/
def wordsAux : List Char → List Char → List (List Char)
  | [], cur => if cur = [] then [] else [cur]
  | c :: rest, cur =>
    if isspace c then
      if cur = [] then wordsAux rest [] else cur :: wordsAux rest []
    else wordsAux rest (cur ++ [c])

/-- The white-space-delimited words of a line, left to right. -/
def words (l : List Char) : List (List Char) := wordsAux l []

/-- The index of the last word that holds a `'|'`, the words being numbered
from `i` on; `acc` when none does. -/
def lastPipeFrom : Nat → List (List Char) → Nat → Nat
  | _, [], acc => acc
  | i, w :: ws, acc => lastPipeFrom (i + 1) ws (if '|' ∈ w then i else acc)

/-- The index of the last word that holds a `'|'`, 0 when none does. -/
def lastPipeIndex (ws : List (List Char)) : Nat := lastPipeFrom 0 ws 0

/-- The quiet world seen from a first child: every `fork` returns 0. -/
def childWorld : World :=
  { username := ['u'], stale := fun _ => [], junk := fun _ => zeroJunk,
    pipe_junk := fun _ => zeroJunk, pipe_ret := fun _ => 0, fork_ret := fun _ _ => 0,
    execve := fun _ _ => false, chdir := fun _ _ => none }

/-- The quiet world seen from the second child of a pipeline: the first
`fork` of a pass returns the process id 7, the second returns 0. -/
def secondChildWorld : World :=
  { username := ['u'], stale := fun _ => [], junk := fun _ => zeroJunk,
    pipe_junk := fun _ => zeroJunk, pipe_ret := fun _ => 0,
    fork_ret := fun _ j => if j = 0 then 7 else 0,
    execve := fun _ _ => false, chdir := fun _ _ => none }

/-- The quiet world with `pipe` failing: it returns -1. -/
def noPipeWorld : World :=
  { username := ['u'], stale := fun _ => [], junk := fun _ => zeroJunk,
    pipe_junk := fun _ => zeroJunk, pipe_ret := fun _ => -1, fork_ret := fun _ _ => 7,
    execve := fun _ _ => false, chdir := fun _ _ => none }

/-- The world of `noPipeWorld` seen from a first child. -/
def noPipeChildWorld : World :=
  { username := ['u'], stale := fun _ => [], junk := fun _ => zeroJunk,
    pipe_junk := fun _ => zeroJunk, pipe_ret := fun _ => -1, fork_ret := fun _ _ => 0,
    execve := fun _ _ => false, chdir := fun _ _ => none }

/-- The quiet world with the directory `/tmp` present: `chdir` succeeds on
`/tmp` and on nothing else. -/
def tmpWorld : World :=
  { username := ['u'], stale := fun _ => [], junk := fun _ => zeroJunk,
    pipe_junk := fun _ => zeroJunk, pipe_ret := fun _ => 0, fork_ret := fun _ _ => 7,
    execve := fun _ _ => false,
    chdir := fun _ d => if d = ['/', 't', 'm', 'p'] then some d else none }

/-- The quiet world with every `fork` failing: it returns -1. -/
def noForkWorld : World :=
  { username := ['u'], stale := fun _ => [], junk := fun _ => zeroJunk,
    pipe_junk := fun _ => zeroJunk, pipe_ret := fun _ => 0, fork_ret := fun _ _ => -1,
    execve := fun _ _ => false, chdir := fun _ _ => none }

/-- The quiet world with the second `fork` of a pass failing. -/
def noSecondForkWorld : World :=
  { username := ['u'], stale := fun _ => [], junk := fun _ => zeroJunk,
    pipe_junk := fun _ => zeroJunk, pipe_ret := fun _ => 0,
    fork_ret := fun _ j => if j = 0 then 7 else -1,
    execve := fun _ _ => false, chdir := fun _ _ => none }

/-- What `read_command` returns for the line `cd /tmp` on a zeroed heap. -/
def cdTmpRead : ReadResult :=
  { ret := 1,
    cmd := { tok := some ('c' :: 'd' :: List.replicate 74 NUL) ::
               some ('/' :: 't' :: 'm' :: 'p' :: List.replicate 72 NUL) :: List.replicate 24 none,
             count := 2, status := status_value.NORMAL },
    pipe_index := 0, stdin := [] }

/-- The search path of the examples: the one directory `/bin`. -/
def binPaths : List Buf := [['/', 'b', 'i', 'n', NUL]]

/-! ## Invariants of the parsing loop -/

theorem poke_length {b : Buf} {i : Nat} {c : Char} {b1 : Buf} (h : poke b i c = some b1) :
    b1.length = b.length := by
  unfold poke at h
  split at h
  · cases h; simp
  · cases h

theorem storeTok_headBlock {tok : List (Option Buf)} {t i : Nat} {c : Char}
    {tok1 : List (Option Buf)} (h : storeTok tok t i c = some tok1) (hb : HeadBlock tok) :
    HeadBlock tok1 := by
  obtain ⟨b, hb0, hlen⟩ := hb
  unfold storeTok at h
  split at h
  · rename_i blk hget
    split at h
    · rename_i b1 hp
      cases h
      by_cases ht : t = 0
      · subst ht
        rw [hb0] at hget
        cases hget
        refine ⟨b1, ?_, ?_⟩
        · have : 0 < tok.length := by
            rcases tok with _ | ⟨x, xs⟩
            · simp at hb0
            · simp
          simp [List.get?_eq_getElem?, List.getElem?_set, this]
        · rw [poke_length hp]; exact hlen
      · refine ⟨b, ?_, hlen⟩
        rw [List.get?_eq_getElem?] at hb0 ⊢
        rw [List.getElem?_set_ne (fun h => ht h)]
        exact hb0
    · cases h
  · cases h

theorem set_succ_headBlock {tok : List (Option Buf)} (t : Nat) (x : Option Buf)
    (hb : HeadBlock tok) : HeadBlock (tok.set (t + 1) x) := by
  obtain ⟨b, hb0, hlen⟩ := hb
  refine ⟨b, ?_, hlen⟩
  rw [List.get?_eq_getElem?] at hb0 ⊢
  rw [List.getElem?_set_ne (by omega)]
  exact hb0

/-- The loop keeps `tok[0]` allocated and never leaves early with `NORMAL`. -/
theorem read_loop_inv (junk : Nat → Nat → Char) :
    ∀ (l : List Char) (s : RState) (r : RState × Option status_value),
      read_loop junk l s = some r → HeadBlock s.tok →
        HeadBlock r.1.tok ∧ r.2 ≠ some status_value.NORMAL := by
  intro l
  induction l with
  | nil =>
    intro s r h hb
    simp [read_loop] at h
    subst h
    exact ⟨hb, by simp⟩
  | cons c rest ih =>
    intro s r h hb
    rw [read_loop] at h
    split at h
    · split at h
      · cases h
      · rename_i tok1 hst
        exact ih _ _ h (storeTok_headBlock hst hb)
    · split at h
      · exact ih _ _ h hb
      · split at h
        · split at h
          · cases h
          · rename_i tok1 hst
            have hb1 := storeTok_headBlock hst hb
            split at h
            · exact ih _ _ h (set_succ_headBlock _ _ hb1)
            · split at h
              · cases h
                exact ⟨hb1, by simp⟩
              · exact ih _ _ h hb1
        · cases h
          exact ⟨hb, by simp⟩

theorem read_init_headBlock : HeadBlock read_init.tok :=
  ⟨calloc (MAXTOKSIZE + 1), rfl, by simp [calloc, MAXTOKSIZE]⟩

/-- Whatever `read_command` returns, `tok[0]` is allocated, and a status other
than `NORMAL` comes with the return value 0. -/
theorem read_command_inv {stale : List Char} {junk : Nat → Nat → Char} {stdin : List Char}
    {r : ReadResult} (h : read_command stale junk stdin = some r) :
    HeadBlock r.cmd.tok ∧ (r.cmd.status ≠ status_value.NORMAL → r.ret = 0) := by
  unfold read_command at h
  simp only at h
  split at h
  · cases h
  · rename_i s st hl
    have := read_loop_inv junk _ _ _ hl read_init_headBlock
    cases h
    exact ⟨this.1, fun _ => rfl⟩
  · rename_i s hl
    have := read_loop_inv junk _ _ _ hl read_init_headBlock
    split at h
    · cases h
      exact ⟨this.1, fun _ => rfl⟩
    · split at h
      · cases h
      · split at h
        · cases h
          exact ⟨this.1, fun _ => rfl⟩
        · cases h
          exact ⟨this.1, fun hne => absurd rfl hne⟩

/-- At end of input `read_command` never reports `NORMAL` and leaves the
(empty) input as it is. -/
theorem read_command_eof {stale : List Char} {junk : Nat → Nat → Char} {r : ReadResult}
    (h : read_command stale junk [] = some r) :
    r.cmd.status ≠ status_value.NORMAL ∧ r.stdin = [] := by
  unfold read_command at h
  simp only [fgets] at h
  split at h
  · cases h
  · rename_i s st hl
    have := (read_loop_inv junk _ _ _ hl read_init_headBlock).2
    cases h
    exact ⟨fun hn => this (by simp only at hn; simp [hn]), rfl⟩
  · simp only [Option.isNone_none, if_true] at h
    cases h
    exact ⟨by simp, rfl⟩

/-- What one pass of the loop of `main` does after a failed read: nothing but
the prompt when `tok[0]` is empty, the prompt and the message of the status
otherwise; the loop goes on in both cases. -/
theorem main_iteration_failed_read (w : World) (num_paths : Nat) (paths : List Buf) (k : Nat)
    (stdin cwd : List Char) (r : ReadResult)
    (h : read_command (w.stale k) (w.junk k) stdin = some r)
    (hs : r.cmd.status ≠ status_value.NORMAL) :
    ∃ first, first_byte r.cmd = some first ∧
      main_branch r.ret r.cmd r.pipe_index =
        some (if first = NUL then Branch.again else Branch.report (status_message r.cmd.status)) ∧
      main_iteration w num_paths paths k stdin cwd =
        (if first = NUL then [prompt w] else [prompt w, Event.printf (status_message r.cmd.status) []],
          Ending.running r.stdin cwd) := by
  obtain ⟨⟨b, hb0, hlen⟩, hret⟩ := read_command_inv h
  have hr := hret hs
  obtain ⟨first, rest, hb⟩ : ∃ first rest, b = first :: rest := by
    rcases b with _ | ⟨x, xs⟩
    · simp at hlen
    · exact ⟨x, xs, rfl⟩
  subst hb
  have hbr : main_branch r.ret r.cmd r.pipe_index =
      some (if first = NUL then Branch.again else Branch.report (status_message r.cmd.status)) := by
    unfold main_branch
    rw [hb0]
    by_cases hf : first = NUL <;> simp [hf, hr]
  refine ⟨first, ?_, hbr, ?_⟩
  · unfold first_byte
    rw [hb0]
    rfl
  · unfold main_iteration
    rw [h]
    simp only [hbr]
    by_cases hf : first = NUL <;> simp [hf, prompt]

/-! ## The tokenizer on concrete lines -/

set_option maxRecDepth 100000

/-- Claim C1, evaluated at its own example.  On the line `ls -l` the status is
`NORMAL`, the count 2 and `pipe_index` 0; the two tokens are `ls` and `-l` when
the block `malloc` hands out for `tok[1]` is zero at offset 2, but with the byte
`X` there the second token reads `-lX`: the terminator is written at `++ti`, one
place behind the end of the word. -/
theorem read_command_ls_l :
    (read_command [] zeroJunk "ls -l\n".toList).bind (fun r => tokens r.cmd.tok r.cmd.count)
        = some ["ls".toList, "-l".toList] ∧
      (read_command [] dirtyJunk "ls -l\n".toList).map (fun r => r.cmd.status)
        = some status_value.NORMAL ∧
      (read_command [] dirtyJunk "ls -l\n".toList).map (fun r => r.cmd.count) = some 2 ∧
      (read_command [] dirtyJunk "ls -l\n".toList).map (fun r => r.pipe_index) = some 0 ∧
      (read_command [] dirtyJunk "ls -l\n".toList).bind (fun r => tokens r.cmd.tok r.cmd.count)
        = some ["ls".toList, "-lX".toList] := by
  decide

/-- Claim C2, evaluated.  For `ls -l | grep foo` on a zeroed heap `leftPipe`
gives `ls`, `-l` and `rightPipe` gives `grep`, `foo`; for the line `a | b...b`
with a word of 50 letters the command is `NORMAL` with `0 < pipe_index < count`
and `leftPipe` copies `a`, but `rightPipe` writes outside its 50-byte block. -/
theorem rightPipe_fifty_letters :
    (read_command [] zeroJunk "ls -l | grep foo\n".toList).bind
        (fun r => (leftPipe zeroJunk r.pipe_index r.cmd.tok).bind strings)
        = some ["ls".toList, "-l".toList] ∧
      (read_command [] zeroJunk "ls -l | grep foo\n".toList).bind
        (fun r => (rightPipe zeroJunk r.pipe_index r.cmd.tok r.cmd.count).bind strings)
        = some ["grep".toList, "foo".toList] ∧
      (read_command [] zeroJunk ("a | ".toList ++ List.replicate 50 'b' ++ ['\n'])).map
        (fun r => r.cmd.status) = some status_value.NORMAL ∧
      (read_command [] zeroJunk ("a | ".toList ++ List.replicate 50 'b' ++ ['\n'])).map
        (fun r => r.pipe_index) = some 1 ∧
      (read_command [] zeroJunk ("a | ".toList ++ List.replicate 50 'b' ++ ['\n'])).map
        (fun r => r.cmd.count) = some 3 ∧
      (read_command [] zeroJunk ("a | ".toList ++ List.replicate 50 'b' ++ ['\n'])).bind
        (fun r => (leftPipe zeroJunk r.pipe_index r.cmd.tok).bind strings) = some [['a']] ∧
      (read_command [] zeroJunk ("a | ".toList ++ List.replicate 50 'b' ++ ['\n'])).map
        (fun r => rightPipe zeroJunk r.pipe_index r.cmd.tok r.cmd.count) = some none := by
  decide

/-- Claim C3, evaluated.  `getPaths` on `/bin:/usr/bin` returns the count 2 and,
on a zeroed heap, the entries `/bin` and `/usr/bin`; with the byte `X` in the
fresh blocks the entries read `/binX` and `/usr/binX`, because the terminator is
written at `++bi`.  A first segment of 24 characters has its terminator written
outside the 25-byte block. -/
theorem getPaths_bin_usr_bin :
    (getPaths zeroJunk 50 "/bin:/usr/bin".toList).map (fun r => (r.1, strings r.2))
        = some (2, some ["/bin".toList, "/usr/bin".toList]) ∧
      (getPaths dirtyJunk 50 "/bin:/usr/bin".toList).map (fun r => (r.1, strings r.2))
        = some (2, some ["/binX".toList, "/usr/binX".toList]) ∧
      splitColon "/bin:/usr/bin".toList = ["/bin".toList, "/usr/bin".toList] ∧
      getPaths zeroJunk 50 (List.replicate 24 'a') = none := by
  decide

/-- Claim C4, evaluated.  With the directories `/bin` and `dd...d` (26 letters),
as `getPaths` delivers them, and the command `cc...c` (73 letters), as
`read_command` delivers it, `execCmd` tries `/bin/cc...c` and then leaves the
`MAXTOKSIZE+25` bytes of `cmd` while building the second file name: the second
directory is not tried and the function does not return in a defined way. -/
theorem execCmd_long_candidate :
    (read_command [] zeroJunk (List.replicate 73 'c' ++ ['\n'])).bind
        (fun r => (getPaths zeroJunk 50 ("/bin:".toList ++ List.replicate 26 'd')).map
          (fun p => execCmd (fun _ _ => false) p.1 p.2 r.cmd.tok))
      = some (Launch.undefined
          [⟨"/bin/".toList ++ List.replicate 73 'c', [List.replicate 73 'c']⟩]) := by
  decide

/-- Claim C5, evaluated.  A word of 73 letters and a newline is read with status
`NORMAL`, count 1 and the word as `tok[0]`; words of 74 and of 75 letters are
refused with `OVERSIZE_TOKEN`, since the test is `(++ti) < MAXTOKSIZE`. -/
theorem read_command_word_of_75 :
    (read_command [] zeroJunk (List.replicate 73 'a' ++ ['\n'])).map (fun r => r.cmd.status)
        = some status_value.NORMAL ∧
      (read_command [] zeroJunk (List.replicate 73 'a' ++ ['\n'])).bind
        (fun r => tokens r.cmd.tok r.cmd.count) = some [List.replicate 73 'a'] ∧
      (read_command [] zeroJunk (List.replicate 74 'a' ++ ['\n'])).map (fun r => r.cmd.status)
        = some status_value.OVERSIZE_TOKEN ∧
      (read_command [] zeroJunk (List.replicate 75 'a' ++ ['\n'])).map (fun r => r.cmd.status)
        = some status_value.OVERSIZE_TOKEN ∧
      (read_command [] zeroJunk (List.replicate 75 'a' ++ ['\n'])).map (fun r => r.ret)
        = some 0 := by
  decide

/-- Claim C6, evaluated.  A first word of 76 letters fills the 76 bytes of
`tok[0]` and is refused with `OVERSIZE_TOKEN`, return value 0 and count 0, also
when more words follow; a first word of 77 letters is written to `tok[0][76]`,
outside the block, before any length is tested. -/
theorem read_command_word_of_77 :
    (read_command [] zeroJunk (List.replicate 76 'a' ++ " b\n".toList)).map
        (fun r => r.cmd.status) = some status_value.OVERSIZE_TOKEN ∧
      (read_command [] zeroJunk (List.replicate 76 'a' ++ " b\n".toList)).map
        (fun r => r.ret) = some 0 ∧
      (read_command [] zeroJunk (List.replicate 76 'a' ++ " b\n".toList)).map
        (fun r => r.cmd.count) = some 0 ∧
      read_command [] zeroJunk (List.replicate 77 'a' ++ ['\n']) = none := by
  decide

/-- Claim C7, evaluated.  Twenty-five words with the newline right behind the
last one are read with status `NORMAL` and count 25; the same 25 words with a
blank between the last word and the newline are refused with
`TOO_MANY_TOKENS`, because `buff[j+1] != 0` is taken for more input. -/
theorem read_command_25_words_trailing_blank :
    (read_command [] zeroJunk (wordsLine 24 ['a', '\n'])).map (fun r => r.cmd.status)
        = some status_value.NORMAL ∧
      (read_command [] zeroJunk (wordsLine 24 ['a', '\n'])).map (fun r => r.cmd.count)
        = some 25 ∧
      (read_command [] zeroJunk (wordsLine 25 ['\n'])).map (fun r => r.cmd.status)
        = some status_value.TOO_MANY_TOKENS ∧
      (read_command [] zeroJunk (wordsLine 25 ['\n'])).map (fun r => r.ret) = some 0 := by
  decide

/-! ## The loop of `main` after a failed read -/

/-- Claim C8.  When `read_command` leaves a status other than `NORMAL`, the pass
through the loop of `main` takes neither the arm of `run_pipe` nor that of
`run_cmd` nor the exit arm, all its events are output, and the loop goes on
with the unread input and the same working directory. -/
theorem no_process_without_normal_status (w : World) (num_paths : Nat) (paths : List Buf)
    (k : Nat) (stdin cwd : List Char) (r : ReadResult)
    (h : read_command (w.stale k) (w.junk k) stdin = some r)
    (hs : r.cmd.status ≠ status_value.NORMAL) :
    main_branch r.ret r.cmd r.pipe_index ≠ some Branch.pipeline ∧
      main_branch r.ret r.cmd r.pipe_index ≠ some Branch.single ∧
      main_branch r.ret r.cmd r.pipe_index ≠ some Branch.quit ∧
      (∀ e ∈ (main_iteration w num_paths paths k stdin cwd).1, isOutput e = true) ∧
      (main_iteration w num_paths paths k stdin cwd).2 = Ending.running r.stdin cwd := by
  obtain ⟨first, _, hbr, hit⟩ := main_iteration_failed_read w num_paths paths k stdin cwd r h hs
  rw [hbr, hit]
  by_cases hf : first = NUL <;> simp [hf, prompt, isOutput]

/-- Claim C8 at a line of 75 letters: the status is `OVERSIZE_TOKEN` and the
pass prints and loops. -/
theorem no_process_without_normal_status_witness :
    (read_command (quietWorld.stale 0) (quietWorld.junk 0) (List.replicate 75 'a' ++ ['\n'])
        = some { ret := 0,
                 cmd := { tok := some (List.replicate 75 'a' ++ [NUL]) :: List.replicate 25 none,
                          count := 0, status := status_value.OVERSIZE_TOKEN },
                 pipe_index := 0, stdin := [] } ∧
      status_value.OVERSIZE_TOKEN ≠ status_value.NORMAL) ∧
    (∀ e ∈ (main_iteration quietWorld 0 [] 0 (List.replicate 75 'a' ++ ['\n']) []).1,
        isOutput e = true) ∧
      (main_iteration quietWorld 0 [] 0 (List.replicate 75 'a' ++ ['\n']) []).2
        = Ending.running [] [] :=
  ⟨⟨by decide, by decide⟩,
    (no_process_without_normal_status quietWorld 0 [] 0 (List.replicate 75 'a' ++ ['\n']) []
      { ret := 0,
        cmd := { tok := some (List.replicate 75 'a' ++ [NUL]) :: List.replicate 25 none,
                 count := 0, status := status_value.OVERSIZE_TOKEN },
        pipe_index := 0, stdin := [] } (by decide) (by decide)).2.2.2⟩

/-- Claim C9 refuted: at end of input the status is `EOF_FOUND`, and three
passes of the loop of `main` print three prompts and leave the loop running. -/
theorem main_loop_eof_three_prompts :
    (read_command (quietWorld.stale 0) (quietWorld.junk 0) []).map (fun r => r.cmd.status)
        = some status_value.EOF_FOUND ∧
      main_loop quietWorld 0 [] 3 0 [] []
        = ([prompt quietWorld, prompt quietWorld, prompt quietWorld], Ending.running [] []) := by
  decide

/-- Claim C9 as amended.  At end of input (`fgets` stores nothing) the session
does not end: whenever `read_command` is defined on the stale buffers, any
number `fuel` of passes of the loop of `main` prints `fuel` prompts, nothing
but output happens, and the loop is still running on the empty input. -/
theorem main_loop_goes_on_at_end_of_input (w : World) (num_paths : Nat) (paths : List Buf)
    (hdef : ∀ i, read_command (w.stale i) (w.junk i) [] ≠ none) (fuel k : Nat) (cwd : List Char) :
    (main_loop w num_paths paths fuel k [] cwd).2 = Ending.running [] cwd ∧
      (main_loop w num_paths paths fuel k [] cwd).1.count (prompt w) = fuel ∧
      ∀ e ∈ (main_loop w num_paths paths fuel k [] cwd).1, isOutput e = true := by
  induction fuel generalizing k with
  | zero => simp [main_loop]
  | succ n ih =>
    obtain ⟨r, hr⟩ := Option.ne_none_iff_exists'.mp (hdef k)
    obtain ⟨hs, hin⟩ := read_command_eof hr
    obtain ⟨first, _, _, hit⟩ := main_iteration_failed_read w num_paths paths k [] cwd r hr hs
    rw [hin] at hit
    obtain ⟨ih1, ih2, ih3⟩ := ih (k + 1)
    have hne : ∀ m : String, Event.printf m [] ≠ prompt w := by
      intro m hm
      simp [prompt] at hm
    rw [main_loop, hit]
    refine ⟨ih1, ?_, ?_⟩
    · by_cases hf : first = NUL
      · simp [hf, List.count_cons_self, ih2]
      · simp only [hf, if_false, List.count_append, ih2]
        rw [List.count_cons_self]
        have hb : (Event.printf (status_message r.cmd.status) [] == prompt w) = false := by
          simpa using hne (status_message r.cmd.status)
        simp [List.count_cons, hb]
        omega
    · intro e he
      simp only [List.mem_append] at he
      rcases he with he | he
      · by_cases hf : first = NUL
        · simp [hf, prompt] at he
          subst he
          rfl
        · simp [hf, prompt] at he
          rcases he with he | he <;> subst he <;> rfl
      · exact ih3 e he

/-- Claim C9 as amended, in the quiet world: four passes at end of input print
four prompts and the loop is still running. -/
theorem main_loop_goes_on_at_end_of_input_witness :
    (∀ i, read_command (quietWorld.stale i) (quietWorld.junk i) [] ≠ none) ∧
      (main_loop quietWorld 0 [] 4 0 [] []).2 = Ending.running [] [] ∧
      (main_loop quietWorld 0 [] 4 0 [] []).1.count (prompt quietWorld) = 4 :=
  ⟨fun _ => (by decide : read_command [] zeroJunk [] ≠ none),
    (main_loop_goes_on_at_end_of_input quietWorld 0 []
      (fun _ => (by decide : read_command [] zeroJunk [] ≠ none)) 4 0 []).1,
    (main_loop_goes_on_at_end_of_input quietWorld 0 []
      (fun _ => (by decide : read_command [] zeroJunk [] ≠ none)) 4 0 []).2.1⟩

/-- Claim C10 refuted: the input is one blank and then ends; the status is
`INPUT_OVERFLOW`, the first token is empty, and the pass through the loop of
`main` prints the prompt and no message. -/
theorem no_report_for_empty_first_token :
    (read_command (quietWorld.stale 0) (quietWorld.junk 0) [' ']).map (fun r => r.cmd.status)
        = some status_value.INPUT_OVERFLOW ∧
      (read_command (quietWorld.stale 0) (quietWorld.junk 0) [' ']).bind
        (fun r => first_byte r.cmd) = some NUL ∧
      main_iteration quietWorld 0 [] 0 [' '] [] = ([prompt quietWorld], Ending.running [] []) := by
  decide

/-- Claim C10 as amended.  The test of the first token comes before the test
of the status: when the status is not `NORMAL` and `tok[0]` is not empty the
pass prints the prompt and the message of that status and loops; when `tok[0]`
is empty it prints the prompt alone.  The messages of different statuses
differ, and none is the "Command not found" format. -/
theorem report_when_first_token_nonempty (w : World) (num_paths : Nat) (paths : List Buf)
    (k : Nat) (stdin cwd : List Char) (r : ReadResult)
    (h : read_command (w.stale k) (w.junk k) stdin = some r)
    (hs : r.cmd.status ≠ status_value.NORMAL) :
    (∃ first, first_byte r.cmd = some first ∧
        (first ≠ NUL → main_iteration w num_paths paths k stdin cwd =
          ([prompt w, Event.printf (status_message r.cmd.status) []],
            Ending.running r.stdin cwd)) ∧
        (first = NUL → main_iteration w num_paths paths k stdin cwd =
          ([prompt w], Ending.running r.stdin cwd))) ∧
      (∀ s1 s2, status_message s1 = status_message s2 → s1 = s2) ∧
      ∀ s, status_message s ≠ "%s: Command not found.\n" := by
  obtain ⟨first, hfb, _, hit⟩ := main_iteration_failed_read w num_paths paths k stdin cwd r h hs
  refine ⟨⟨first, hfb, ?_, ?_⟩, ?_, ?_⟩
  · intro hf
    rw [hit]
    simp [hf]
  · intro hf
    rw [hit]
    simp [hf]
  · intro s1 s2
    cases s1 <;> cases s2 <;> decide
  · intro s
    cases s <;> decide

/-- Claim C10 as amended, at the input `ab` that ends without a newline: the
status is `INPUT_OVERFLOW`, `tok[0]` starts with `a`, and the pass prints the
prompt and `Error: INPUT_OVERFLOW`. -/
theorem report_when_first_token_nonempty_witness :
    (read_command (quietWorld.stale 0) (quietWorld.junk 0) ['a', 'b']
        = some { ret := 0,
                 cmd := { tok := some ('a' :: 'b' :: List.replicate 74 NUL) ::
                            List.replicate 25 none,
                          count := 0, status := status_value.INPUT_OVERFLOW },
                 pipe_index := 0, stdin := [] } ∧
      status_value.INPUT_OVERFLOW ≠ status_value.NORMAL) ∧
    ∃ first, first_byte { tok := some ('a' :: 'b' :: List.replicate 74 NUL) ::
                            List.replicate 25 none,
                          count := 0, status := status_value.INPUT_OVERFLOW } = some first ∧
        (first ≠ NUL → main_iteration quietWorld 0 [] 0 ['a', 'b'] [] =
          ([prompt quietWorld, Event.printf "Error: INPUT_OVERFLOW\n" []],
            Ending.running [] [])) ∧
        (first = NUL → main_iteration quietWorld 0 [] 0 ['a', 'b'] [] =
          ([prompt quietWorld], Ending.running [] [])) :=
  ⟨⟨by decide, by decide⟩,
    (report_when_first_token_nonempty quietWorld 0 [] 0 ['a', 'b'] []
      { ret := 0,
        cmd := { tok := some ('a' :: 'b' :: List.replicate 74 NUL) :: List.replicate 25 none,
                 count := 0, status := status_value.INPUT_OVERFLOW },
        pipe_index := 0, stdin := [] } (by decide) (by decide)).1⟩

/-! ## Lines that `read_command` accepts -/

theorem isspace_ne_NUL {c : Char} (h : isspace c = true) : (c != NUL) = true := by
  have hn : isspace NUL = false := by decide
  simp only [bne_iff_ne, ne_eq]
  intro hc
  rw [hc, hn] at h
  cases h

/-- White space in front of a word is skipped without any change of state. -/
theorem read_loop_blank (junk : Nat → Nat → Char) :
    ∀ (l : List Char) (s : RState), (∀ c ∈ l, isspace c = true) → s.ti = 0 →
      read_loop junk l s = some (s, none) := by
  intro l
  induction l with
  | nil => intro s _ _; rfl
  | cons c rest ih =>
    intro s hws hti
    have hc : isspace c = true := hws c (List.mem_cons_self _ _)
    rw [read_loop]
    simp only [hc, hti, Bool.not_true, if_true]
    simpa using ih s (fun x hx => hws x (List.mem_cons_of_mem _ hx)) hti

theorem stored_line_cons (c : Char) (cs : List Char) :
    stored_line (c :: cs) = if c = '\n' then [c] else c :: fgets_line 998 cs := rfl

theorem stored_line_ne_nil {stdin : List Char} (h : stdin ≠ []) : stored_line stdin ≠ [] := by
  rcases stdin with _ | ⟨c, cs⟩
  · exact absurd rfl h
  · rw [stored_line_cons]
    split <;> simp

/-- A newline that `fgets` stores is the last character stored. -/
theorem fgets_line_newline_last :
    ∀ (n : Nat) (l pre post : List Char), fgets_line n l = pre ++ '\n' :: post → post = [] := by
  intro n
  induction n with
  | zero =>
    intro l pre post h
    simp [fgets_line] at h
  | succ n ih =>
    intro l pre post h
    rcases l with _ | ⟨c, cs⟩
    · simp [fgets_line] at h
    · rw [fgets_line] at h
      by_cases hc : c = '\n'
      · simp only [hc, if_true] at h
        rcases pre with _ | ⟨x, xs⟩
        · simpa using h.symm
        · simp at h
      · simp only [hc, if_false] at h
        rcases pre with _ | ⟨x, xs⟩
        · simp at h
          exact absurd h.1 hc
        · simp only [List.cons_append, List.cons.injEq] at h
          exact ih cs xs post h.2

/-- A stored line whose part in front of the first NUL ends in a newline has
no NUL at all. -/
theorem takeWhile_stored_line {stdin : List Char}
    (h : ((stored_line stdin).takeWhile (fun c => c != NUL)).getLast? = some '\n') :
    (stored_line stdin).takeWhile (fun c => c != NUL) = stored_line stdin := by
  obtain ⟨ys, hys⟩ := List.getLast?_eq_some_iff.mp h
  have hsplit := List.takeWhile_append_dropWhile (fun c => c != NUL) (stored_line stdin)
  rw [hys] at hsplit
  generalize (stored_line stdin).dropWhile (fun c => c != NUL) = post at hsplit
  have hpost : post = [] :=
    fgets_line_newline_last (MAX - 1) stdin ys post (by
      show stored_line stdin = _
      rw [← hsplit]; simp)
  rw [hpost] at hsplit
  rw [hys]
  simpa using hsplit


/-- The shape of every result of `read_command` with status `NORMAL`: the
input was not at its end, the stored line has no NUL and ends in a newline, the
loop ran through it without an early return, and the return value is 1. -/
theorem read_command_normal {stale : List Char} {junk : Nat → Nat → Char} {stdin : List Char}
    {r : ReadResult} (h : read_command stale junk stdin = some r)
    (hs : r.cmd.status = status_value.NORMAL) :
    stdin ≠ [] ∧ (stored_line stdin).getLast? = some '\n' ∧
      ∃ s, read_loop junk (stored_line stdin) read_init = some (s, none) ∧
        r = { ret := 1, cmd := { tok := s.tok, count := s.count, status := status_value.NORMAL },
              pipe_index := s.pipe_index,
              stdin := stdin.drop (stored_line stdin).length } := by
  rcases stdin with _ | ⟨c, cs⟩
  · exact absurd hs (read_command_eof h).1
  · unfold read_command at h
    simp only [fgets] at h
    split at h
    · cases h
    · rename_i s st hl
      have := (read_loop_inv junk _ _ _ hl read_init_headBlock).2
      cases h
      simp only at hs
      exact absurd (by rw [hs]) this
    · rename_i s hl
      simp only [Option.isNone_some, Bool.false_eq_true, if_false] at h
      split at h
      · cases h
      · rename_i last hlast
        split at h
        · cases h
          cases hs
        · rename_i hnl
          have hl1 : last = '\n' := by simpa using hnl
          rw [hl1] at hlast
          have htw := @takeWhile_stored_line (c :: cs) hlast
          change (List.takeWhile (fun c => c != NUL) (stored_line (c :: cs))).getLast? = _ at hlast
          change read_loop junk (List.takeWhile (fun c => c != NUL) (stored_line (c :: cs))) _ = _ at hl
          rw [htw] at hlast hl
          cases h
          exact ⟨by simp, hlast, s, hl, rfl⟩

/-- The first byte of a block and the string it holds. -/
theorem cstring_first {b : Buf} {name : List Char} (h : cstring b = some name) :
    ∃ first, b.get? 0 = some first ∧ (first = NUL ↔ name = []) := by
  unfold cstring at h
  split at h
  · rename_i hmem
    cases h
    rcases b with _ | ⟨x, xs⟩
    · simp at hmem
    · refine ⟨x, rfl, ?_⟩
      by_cases hx : x = NUL
      · have hb : (x != NUL) = false := by simp [hx]
        simp [hx, List.takeWhile, hb]
      · have hb : (x != NUL) = true := by simpa using hx
        simp [hx, List.takeWhile, hb]
  · cases h

/-- The arm `main` takes for a command that was read with return value 1. -/
theorem main_branch_read {c : command} {name : List Char} (p : Nat)
    (h : first_token c = some name) :
    main_branch 1 c p =
      some (if name = [] then Branch.again
            else if name = exitKey then Branch.quit
            else if p ≠ 0 then Branch.pipeline else Branch.single) := by
  unfold first_token at h
  unfold main_branch
  split at h
  · rename_i t0 ht0
    obtain ⟨first, hf, hiff⟩ := cstring_first h
    simp only [hf, h]
    by_cases hn : name = []
    · simp [hn, hiff.mpr hn]
    · have : first ≠ NUL := fun hc => hn (hiff.mp hc)
      simp only [hn, this, if_false]
      split_ifs <;> simp_all
  · cases h


/-- What `read_command` returns for a stored line of white space only. -/
theorem read_command_blank (stale : List Char) (junk : Nat → Nat → Char) {stdin : List Char}
    (hne : stdin ≠ []) (hws : ∀ c ∈ stored_line stdin, isspace c = true) :
    ∃ ret st, read_command stale junk stdin =
        some { ret := ret, cmd := { tok := read_init.tok, count := 0, status := st },
               pipe_index := 0, stdin := stdin.drop (stored_line stdin).length } ∧
      ((stored_line stdin).getLast? = some '\n' → st = status_value.NORMAL) := by
  have hnil := stored_line_ne_nil hne
  have htw : (stored_line stdin).takeWhile (fun c => c != NUL) = stored_line stdin :=
    List.takeWhile_eq_self_iff.mpr (fun x hx => isspace_ne_NUL (hws x hx))
  have hloop := read_loop_blank junk (stored_line stdin) read_init hws rfl
  obtain ⟨last, hlast⟩ : ∃ last, (stored_line stdin).getLast? = some last := by
    rcases hgl : (stored_line stdin).getLast? with _ | x
    · exact absurd (List.getLast?_eq_none_iff.mp hgl) hnil
    · exact ⟨x, rfl⟩
  rcases stdin with _ | ⟨c, cs⟩
  · exact absurd rfl hne
  · unfold read_command
    simp only [fgets, stored_line] at htw hloop hlast ⊢
    simp only [htw, hloop, hlast, Option.isNone_some, Bool.false_eq_true, if_false]
    by_cases hl : last = '\n'
    · refine ⟨1, status_value.NORMAL, ?_, fun _ => rfl⟩
      simp [hl, read_init]
    · refine ⟨0, status_value.INPUT_OVERFLOW, ?_, fun hn => ?_⟩
      · simp [hl, read_init]
      · exact absurd (Option.some.inj hn) hl

theorem first_token_read_init (st : status_value) :
    first_token { tok := read_init.tok, count := 0, status := st } = some [] := by
  cases st <;> decide

/-- Claim C11.  When the line `fgets` stores consists of white space only (the
bare newline included), `read_command` returns with count 0, an empty first
token and `pipe_index` 0 (and status `NORMAL` when the line ends in its
newline), and the pass through the loop of `main` prints the prompt and nothing
else: no `fork`, no `pipe`, no exit; the loop goes on with the rest of the
input. -/
theorem blank_line_is_skipped (w : World) (num_paths : Nat) (paths : List Buf) (k : Nat)
    (stdin cwd : List Char) (hne : stdin ≠ [])
    (hws : ∀ c ∈ stored_line stdin, isspace c = true) :
    ∃ r, read_command (w.stale k) (w.junk k) stdin = some r ∧
      r.cmd.count = 0 ∧ first_token r.cmd = some [] ∧ r.pipe_index = 0 ∧
      ((stored_line stdin).getLast? = some '\n' → r.cmd.status = status_value.NORMAL) ∧
      main_iteration w num_paths paths k stdin cwd = ([prompt w], Ending.running r.stdin cwd) := by
  obtain ⟨ret, st, hr, hst⟩ := read_command_blank (w.stale k) (w.junk k) hne hws
  refine ⟨_, hr, rfl, first_token_read_init st, rfl, hst, ?_⟩
  unfold main_iteration
  rw [hr]
  have hbr : main_branch ret { tok := read_init.tok, count := 0, status := st } 0
      = some Branch.again := by
    unfold main_branch
    simp [read_init, calloc, MAXTOKSIZE, List.replicate]
  simp only [hbr, prompt]

/-- Claim C11 at the line of two blanks and a newline, followed by more
input. -/
theorem blank_line_is_skipped_witness :
    ("  \nls\n".toList ≠ [] ∧ ∀ c ∈ stored_line "  \nls\n".toList, isspace c = true) ∧
      ∃ r, read_command (quietWorld.stale 0) (quietWorld.junk 0) "  \nls\n".toList = some r ∧
        r.cmd.count = 0 ∧ first_token r.cmd = some [] ∧ r.pipe_index = 0 ∧
        ((stored_line "  \nls\n".toList).getLast? = some '\n' →
          r.cmd.status = status_value.NORMAL) ∧
        main_iteration quietWorld 0 [] 0 "  \nls\n".toList [] =
          ([prompt quietWorld], Ending.running r.stdin []) :=
  ⟨⟨by decide, by decide⟩,
    blank_line_is_skipped quietWorld 0 [] 0 "  \nls\n".toList [] (by decide) (by decide)⟩

/-! ## The exit keyword -/

/-- The parent of `run_pipe`: with both `fork` calls returning a child's
process id the function makes its seven calls and returns. -/
theorem run_pipe_parent (w : World) (k num_paths : Nat) (paths : List Buf) (p : Nat)
    (c : command) (h0 : 0 < w.fork_ret k 0) (h1 : 0 < w.fork_ret k 1) :
    run_pipe w k num_paths paths p c =
      ([Event.pipe, Event.fork, Event.fork, Event.close Fd.A0, Event.close Fd.A1, Event.wait,
          Event.wait], End.returned) := by
  unfold run_pipe
  have a0 : ¬ w.fork_ret k 0 = 0 := by omega
  have b0 : ¬ w.fork_ret k 0 < 0 := by omega
  have a1 : ¬ w.fork_ret k 1 = 0 := by omega
  have b1 : ¬ w.fork_ret k 1 < 0 := by omega
  simp only [a0, b0, a1, b1, if_false]

/-- The parent of `run_cmd` for a command other than `cd`: `fork`, `wait`,
return, the working directory as it was. -/
theorem runCmd_parent_other (w : World) (k num_paths : Nat) (paths : List Buf)
    (tok : List (Option Buf)) (cwd : List Char) (t0 : Buf) (name : List Char)
    (h0 : 0 < w.fork_ret k 0) (ht : tok.get? 0 = some (some t0)) (hn : cstring t0 = some name)
    (hcd : name ≠ changedir) :
    runCmd w k num_paths paths tok cwd = ([Event.fork, Event.wait], End.returned, cwd) := by
  unfold runCmd
  have a0 : ¬ w.fork_ret k 0 = 0 := by omega
  have b0 : ¬ w.fork_ret k 0 < 0 := by omega
  simp only [a0, b0, if_false, ht, hn, hcd]

/-- Claim C12.  For a command read with status `NORMAL` whose first token is
`exit`, whatever its other tokens and `pipe_index`, the pass through the loop of
`main` is the prompt and `_exit (1)`: no `fork`, no `pipe`.  For any other first
token the exit arm is not taken, and a first token that contains `exit` without
being equal to it goes to `run_pipe` or `run_cmd`, from which the parent
returns to the loop. -/
theorem exit_keyword_ends_session (w : World) (num_paths : Nat) (paths : List Buf) (k : Nat)
    (stdin cwd : List Char) (r : ReadResult)
    (h : read_command (w.stale k) (w.junk k) stdin = some r)
    (hs : r.cmd.status = status_value.NORMAL) :
    (first_token r.cmd = some exitKey →
        main_iteration w num_paths paths k stdin cwd =
          ([prompt w, Event.exit 1], Ending.ended (End.exited 1))) ∧
      ∀ name, first_token r.cmd = some name → name ≠ exitKey →
        main_branch r.ret r.cmd r.pipe_index ≠ some Branch.quit ∧
        (exitKey <:+: name → 0 < w.fork_ret k 0 → 0 < w.fork_ret k 1 →
          (main_iteration w num_paths paths k stdin cwd).2 = Ending.running r.stdin cwd) := by
  obtain ⟨_, _, s, _, hr⟩ := read_command_normal h hs
  have hret : r.ret = 1 := by rw [hr]
  constructor
  · intro hname
    have hbr := main_branch_read r.pipe_index hname
    rw [← hret] at hbr
    unfold main_iteration
    rw [h]
    simp only [hbr]
    simp [exitKey, prompt]
  · intro name hname hne
    have hbr := main_branch_read r.pipe_index hname
    rw [← hret] at hbr
    constructor
    · rw [hbr]
      split_ifs <;> simp
    · intro hinf h0 h1
      have hlen : exitKey.length ≤ name.length := hinf.length_le
      have hnil : name ≠ [] := by
        intro hc
        rw [hc] at hlen
        simp [exitKey] at hlen
      have hcd : name ≠ changedir := by
        intro hc
        rw [hc] at hlen
        simp [exitKey, changedir] at hlen
      simp only [hnil, hne, if_false] at hbr
      unfold main_iteration
      rw [h]
      by_cases hp : r.pipe_index ≠ 0
      · rw [if_pos hp] at hbr
        simp only [hbr, run_pipe_parent w k num_paths paths _ _ h0 h1, resume]
      · rw [if_neg hp] at hbr
        unfold first_token at hname
        split at hname
        · rename_i t0 ht0
          simp only [hbr, runCmd_parent_other w k num_paths paths _ cwd t0 name h0 ht0 hname hcd,
            resume]
        · cases hname

/-- Claim C12 at the line `exit | foo`: status `NORMAL`, first token `exit`,
`pipe_index` 1, and the pass is the prompt and the exit. -/
theorem exit_keyword_ends_session_witness :
    ((read_command (quietWorld.stale 0) (quietWorld.junk 0) "exit | foo\n".toList).map
          (fun r => r.cmd.status) = some status_value.NORMAL ∧
      (read_command (quietWorld.stale 0) (quietWorld.junk 0) "exit | foo\n".toList).map
          (fun r => r.pipe_index) = some 1) ∧
    main_iteration quietWorld 0 [] 0 "exit | foo\n".toList [] =
      ([prompt quietWorld, Event.exit 1], Ending.ended (End.exited 1)) :=
  ⟨⟨by decide, by decide⟩,
    match hr : read_command (quietWorld.stale 0) (quietWorld.junk 0) "exit | foo\n".toList with
    | some r =>
      (exit_keyword_ends_session quietWorld 0 [] 0 "exit | foo\n".toList [] r hr
        (by
          have h1 : (read_command (quietWorld.stale 0) (quietWorld.junk 0)
              "exit | foo\n".toList).map (fun r => r.cmd.status) = some status_value.NORMAL := by
            decide
          rw [hr] at h1
          simpa using h1)).1
        (by
          have h2 : (read_command (quietWorld.stale 0) (quietWorld.junk 0)
              "exit | foo\n".toList).bind (fun r => first_token r.cmd) = some exitKey := by
            decide
          rw [hr] at h2
          simpa using h2)
    | none => absurd hr (by decide)⟩

/-! ## The recorded pipe index -/

/-- Once the current word holds a `'|'`, the index recorded before does not
matter any more. -/
theorem lastPipeFrom_wordsAux_acc (t : Nat) :
    ∀ (l cur : List Char) (a b : Nat), '|' ∈ cur →
      lastPipeFrom t (wordsAux l cur) a = lastPipeFrom t (wordsAux l cur) b := by
  intro l
  induction l with
  | nil =>
    intro cur a b hc
    have hne : cur ≠ [] := List.ne_nil_of_mem hc
    simp [wordsAux, hne, lastPipeFrom, hc]
  | cons c rest ih =>
    intro cur a b hc
    have hne : cur ≠ [] := List.ne_nil_of_mem hc
    by_cases hsp : isspace c = true
    · simp [wordsAux, hsp, hne, lastPipeFrom, hc]
    · simp only [wordsAux, hsp, Bool.false_eq_true, if_false]
      exact ih (cur ++ [c]) a b (List.mem_append_left _ hc)

/-- The loop of `read_command` against the words of the line: when it runs to
the end of the line, `pipe_index` is the index of the last word with a `'|'`
and `count` has grown by the number of words that were ended. -/
theorem read_loop_words (junk : Nat → Nat → Char) :
    ∀ (l : List Char) (s : RState) (cur : List Char) (r : RState),
      read_loop junk l s = some (r, none) → (s.ti = 0 ↔ cur = []) →
      ('|' ∈ cur → s.pipe_index = s.t) →
        r.pipe_index = lastPipeFrom s.t (wordsAux l cur) s.pipe_index ∧
        r.count + (if r.ti = 0 then 0 else 1) = s.count + (wordsAux l cur).length := by
  intro l
  induction l with
  | nil =>
    intro s cur r h hti hp
    simp only [read_loop, Option.some.injEq, Prod.mk.injEq, and_true] at h
    subst h
    by_cases hc : cur = []
    · simp [wordsAux, hc, lastPipeFrom, hti.mpr hc]
    · have hti0 : s.ti ≠ 0 := fun h0 => hc (hti.mp h0)
      simp only [wordsAux, hc, if_false, lastPipeFrom, hti0, List.length_singleton]
      refine ⟨?_, trivial⟩
      by_cases hm : '|' ∈ cur
      · simp [hm, hp hm]
      · simp [hm]
  | cons c rest ih =>
    intro s cur r h hti hp
    rw [read_loop] at h
    by_cases hsp : isspace c = true
    · simp only [hsp, Bool.not_true, Bool.false_eq_true, if_false] at h
      by_cases h0 : s.ti = 0
      · have hc : cur = [] := hti.mp h0
        simp only [h0, if_true] at h
        have := ih s [] r h (by simp [h0]) (by simp)
        simpa [wordsAux, hsp, hc] using this
      · have hc : cur ≠ [] := fun hc => h0 (hti.mpr hc)
        simp only [h0, if_false] at h
        have hw : wordsAux (c :: rest) cur = cur :: wordsAux rest [] := by
          simp [wordsAux, hsp, hc]
        have hacc : (if '|' ∈ cur then s.t else s.pipe_index) = s.pipe_index := by
          by_cases hm : '|' ∈ cur
          · simp [hm, hp hm]
          · simp [hm]
        rw [hw]
        simp only [lastPipeFrom, hacc, List.length_cons]
        split at h
        · split at h
          · cases h
          · split at h
            · have := ih _ [] r h (by simp) (by simp)
              simp only at this
              refine ⟨this.1, ?_⟩
              omega
            · split at h
              · cases h
              · have := ih _ [] r h (by simp) (by simp)
                simp only at this
                refine ⟨this.1, ?_⟩
                omega
        · cases h
    · simp only [hsp, Bool.not_false, if_true] at h
      split at h
      · cases h
      · have hw : wordsAux (c :: rest) cur = wordsAux rest (cur ++ [c]) := by
          simp [wordsAux, hsp]
        rw [hw]
        have := ih _ (cur ++ [c]) r h (by simp) (by
          intro hm
          simp only
          by_cases hc : c = '|'
          · simp [hc]
          · simp only [hc, if_false]
            rcases List.mem_append.mp hm with hm | hm
            · exact hp hm
            · simp at hm
              exact absurd hm.symm hc)
        simp only at this
        refine ⟨?_, this.2⟩
        rw [this.1]
        by_cases hc : c = '|'
        · exact lastPipeFrom_wordsAux_acc s.t rest (cur ++ [c]) _ _ (by simp [hc])
        · simp [hc]

/-- After a line that ends in white space the loop is between two words. -/
theorem read_loop_ends_blank (junk : Nat → Nat → Char) :
    ∀ (l : List Char) (s r : RState) (c : Char),
      read_loop junk l s = some (r, none) → l.getLast? = some c → isspace c = true →
        r.ti = 0 := by
  intro l
  induction l with
  | nil => intro s r c _ hl; simp at hl
  | cons x rest ih =>
    intro s r c h hl hc
    rw [read_loop] at h
    rcases rest with _ | ⟨y, ys⟩
    · simp only [List.getLast?_singleton, Option.some.injEq] at hl
      subst hl
      simp only [hc, Bool.not_true, Bool.false_eq_true, if_false, read_loop] at h
      split at h
      · rename_i h0
        cases h
        exact h0
      · split at h
        · split at h
          · cases h
          · split at h
            · cases h; rfl
            · split at h
              · cases h
              · cases h; rfl
        · cases h
    · have hl2 : (y :: ys).getLast? = some c := by
        simpa [List.getLast?_cons_cons] using hl
      split at h
      · split at h
        · cases h
        · exact ih _ r c h hl2 hc
      · split at h
        · exact ih _ r c h hl2 hc
        · split at h
          · split at h
            · cases h
            · split at h
              · exact ih _ r c h hl2 hc
              · split at h
                · cases h
                · exact ih _ r c h hl2 hc
          · cases h

/-- Words without a `'|'` leave the recorded index as it is. -/
theorem lastPipeFrom_none (i : Nat) (ws : List (List Char)) (acc : Nat)
    (h : ∀ x ∈ ws, '|' ∉ x) : lastPipeFrom i ws acc = acc := by
  induction ws generalizing i acc with
  | nil => rfl
  | cons x xs ih =>
    have hx : '|' ∉ x := h x (List.mem_cons_self _ _)
    simp only [lastPipeFrom, hx, if_false]
    exact ih (i + 1) acc (fun y hy => h y (List.mem_cons_of_mem _ hy))

/-- The recorded index is the position of the last word with a `'|'`. -/
theorem lastPipeFrom_last (i : Nat) (pre : List (List Char)) (x : List Char)
    (post : List (List Char)) (acc : Nat) (hx : '|' ∈ x) (hpost : ∀ y ∈ post, '|' ∉ y) :
    lastPipeFrom i (pre ++ x :: post) acc = i + pre.length := by
  induction pre generalizing i acc with
  | nil =>
    simp only [List.nil_append, lastPipeFrom, hx, if_true, List.length_nil, Nat.add_zero]
    exact lastPipeFrom_none (i + 1) post i hpost
  | cons p ps ih =>
    show lastPipeFrom (i + 1) (ps ++ x :: post) (if '|' ∈ p then i else acc) =
      i + (p :: ps).length
    rw [ih (i + 1), List.length_cons]
    omega

/-- With `pipe_index` 0 `main` never calls `run_pipe`. -/
theorem main_branch_zero_pipe (read : Nat) (c : command) :
    main_branch read c 0 ≠ some Branch.pipeline := by
  unfold main_branch
  rcases c.tok.get? 0 with _ | _ | t0
  · simp
  · simp
  · simp only
    rcases t0.get? 0 with _ | first
    · simp
    · simp only
      by_cases h1 : first = NUL
      · simp [h1]
      · by_cases h2 : read = 0
        · simp [h1, h2]
        · simp only [h1, h2, if_false]
          rcases cstring t0 with _ | name
          · simp
          · by_cases h3 : name = exitKey <;> simp [h3]

/-- Claim C18.  For every line read with status `NORMAL`, the recorded
`pipe_index` is the index of the last white-space-delimited word of the line
that holds a `'|'`, alone or glued to other characters: it is the number of
words in front of a word with a `'|'` behind which no word has one, and 0 when
no word holds one (so also when only the first word does); `count` is the
number of words; and with `pipe_index` 0 the line is not run as a pipeline. -/
theorem pipe_index_is_last_pipe_word (stale : List Char) (junk : Nat → Nat → Char)
    (stdin : List Char) (r : ReadResult) (h : read_command stale junk stdin = some r)
    (hs : r.cmd.status = status_value.NORMAL) :
    r.pipe_index = lastPipeIndex (words (stored_line stdin)) ∧
      (∀ pre x post, words (stored_line stdin) = pre ++ x :: post → '|' ∈ x →
        (∀ y ∈ post, '|' ∉ y) → r.pipe_index = pre.length) ∧
      ((∀ x ∈ words (stored_line stdin), '|' ∉ x) → r.pipe_index = 0) ∧
      r.cmd.count = (words (stored_line stdin)).length ∧
      (r.pipe_index = 0 → main_branch r.ret r.cmd r.pipe_index ≠ some Branch.pipeline) := by
  obtain ⟨_, hlast, s, hloop, hr⟩ := read_command_normal h hs
  have hw := read_loop_words junk (stored_line stdin) read_init [] s hloop (by simp [read_init])
    (by simp)
  have hti := read_loop_ends_blank junk (stored_line stdin) read_init s '\n' hloop hlast
    (by decide)
  have hpi : s.pipe_index = lastPipeIndex (words (stored_line stdin)) := hw.1
  rw [hr]
  refine ⟨hpi, ?_, ?_, ?_, ?_⟩
  · intro pre x post hsplit hx hpost
    show s.pipe_index = pre.length
    rw [hpi, hsplit, lastPipeIndex, lastPipeFrom_last 0 pre x post 0 hx hpost]
    omega
  · intro hnone
    show s.pipe_index = 0
    rw [hpi, lastPipeIndex, lastPipeFrom_none 0 _ 0 hnone]
  · have := hw.2
    simp only [hti, if_true, read_init] at this
    simpa [words] using this
  · intro hp
    simp only at hp
    simp only [hp]
    exact main_branch_zero_pipe _ _

/-- Claim C18 at the line `a | b | c`: the recorded index is 3, the index of
the second `|` among the five words. -/
theorem pipe_index_is_last_pipe_word_witness :
    ((read_command [] zeroJunk "a | b | c\n".toList).map (fun r => r.cmd.status)
        = some status_value.NORMAL) ∧
      (read_command [] zeroJunk "a | b | c\n".toList).map (fun r => r.pipe_index) = some 3 ∧
      lastPipeIndex (words (stored_line "a | b | c\n".toList)) = 3 ∧
      lastPipeIndex (words (stored_line "a|b c\n".toList)) = 0 :=
  ⟨by decide,
    match hr : read_command [] zeroJunk "a | b | c\n".toList with
    | some r => by
      have h1 : (read_command [] zeroJunk "a | b | c\n".toList).map (fun r => r.cmd.status)
          = some status_value.NORMAL := by decide
      rw [hr] at h1
      have h3 : lastPipeIndex (words (stored_line "a | b | c\n".toList)) = 3 := by decide
      have := (pipe_index_is_last_pipe_word [] zeroJunk "a | b | c\n".toList r hr
        (by simpa using h1)).1
      show some r.pipe_index = some 3
      rw [this, h3]
    | none => absurd hr (by decide),
    by decide, by decide⟩

/-! ## The working directory -/

/-- A pass that leaves the loop running is followed by the next pass, on the
input and in the working directory it left. -/
theorem main_loop_succ_running (w : World) (num_paths : Nat) (paths : List Buf) (n k : Nat)
    (stdin cwd : List Char) (ev : List Event) (stdin1 cwd1 : List Char)
    (h : main_iteration w num_paths paths k stdin cwd = (ev, Ending.running stdin1 cwd1)) :
    main_loop w num_paths paths (n + 1) k stdin cwd =
      (ev ++ (main_loop w num_paths paths n (k + 1) stdin1 cwd1).1,
        (main_loop w num_paths paths n (k + 1) stdin1 cwd1).2) := by
  rw [main_loop, h]

/-- Only the parent of `run_cmd` with the command `cd` changes the working
directory. -/
theorem runCmd_frame (w : World) (k num_paths : Nat) (paths : List Buf)
    (tok : List (Option Buf)) (cwd : List Char)
    (h : ∀ t0, tok.get? 0 = some (some t0) → cstring t0 = some changedir → ¬ 0 < w.fork_ret k 0) :
    (runCmd w k num_paths paths tok cwd).2.2 = cwd := by
  unfold runCmd
  by_cases hneg : w.fork_ret k 0 < 0
  · simp [hneg]
  · simp only [hneg, if_false]
    rcases ht : tok.get? 0 with _ | _ | t0
    · rfl
    · rfl
    · simp only
      rcases hn : cstring t0 with _ | name
      · rfl
      · simp only
        by_cases hz : w.fork_ret k 0 = 0
        · simp only [hz, if_true]
          by_cases hh : name = hack
          · simp only [hh, if_true]
            split_ifs
            · split <;> [rfl; (split_ifs <;> rfl)]
            · rfl
          · simp only [hh, if_false]
            split <;> rfl
        · simp only [hz, if_false]
          by_cases hcd : name = changedir
          · exact absurd (by omega : 0 < w.fork_ret k 0) (h t0 ht (by rw [hn, hcd]))
          · simp only [hcd, if_false]

/-- The arm of `run_cmd` is taken only after a read that returned non-zero and
left `pipe_index` at 0. -/
theorem main_branch_single {read : Nat} {c : command} {p : Nat}
    (h : main_branch read c p = some Branch.single) : read ≠ 0 ∧ p = 0 := by
  revert h
  unfold main_branch
  rcases c.tok.get? 0 with _ | _ | t0
  · simp
  · simp
  · simp only
    rcases t0.get? 0 with _ | first
    · simp
    · simp only
      by_cases h1 : first = NUL
      · simp [h1]
      · by_cases h2 : read = 0
        · simp [h1, h2]
        · simp only [h1, h2, if_false]
          rcases cstring t0 with _ | name
          · simp
          · by_cases h3 : name = exitKey
            · simp [h3]
            · by_cases h4 : p = 0
              · intro _
                exact ⟨h2, h4⟩
              · simp [h3, h4]

/-- Where a pass of the loop of `main` can leave the working directory: as it
was, or where `run_cmd` left it. -/
theorem main_iteration_cwd (w : World) (num_paths : Nat) (paths : List Buf) (k : Nat)
    (stdin cwd : List Char) (r : ReadResult)
    (h : read_command (w.stale k) (w.junk k) stdin = some r) (stdin1 cwd1 : List Char)
    (he : (main_iteration w num_paths paths k stdin cwd).2 = Ending.running stdin1 cwd1) :
    cwd1 = cwd ∨ (main_branch r.ret r.cmd r.pipe_index = some Branch.single ∧
      cwd1 = (runCmd w k num_paths paths r.cmd.tok cwd).2.2) := by
  unfold main_iteration at he
  rw [h] at he
  simp only at he
  rcases hb : main_branch r.ret r.cmd r.pipe_index with _ | b
  · simp [hb] at he
  · cases b with
    | again =>
      simp only [hb, Ending.running.injEq] at he
      exact Or.inl he.2.symm
    | report msg =>
      simp only [hb, Ending.running.injEq] at he
      exact Or.inl he.2.symm
    | quit => simp [hb] at he
    | pipeline =>
      simp only [hb] at he
      left
      generalize (run_pipe w k num_paths paths r.pipe_index r.cmd).2 = e at he
      cases e <;> simp [resume] at he
      exact he.2.symm
    | single =>
      simp only [hb] at he
      right
      refine ⟨rfl, ?_⟩
      generalize (runCmd w k num_paths paths r.cmd.tok cwd).2.1 = e at he
      cases e <;> simp [resume] at he
      exact he.2.symm

/-- Claim C16.  With the working directory of the session as state: for a
command read with status `NORMAL` and `pipe_index` 0 whose first token is `cd`,
the process to which `fork` returned a child (the session) calls `chdir` on the
string of `tok[1]`, waits, and goes on in the directory `chdir` entered, or in
the old one when `chdir` fails or `tok[1]` is null; the next pass of the loop
runs in that directory.  Every other pass that leaves the loop running leaves
the working directory as it was. -/
theorem cd_changes_session_directory (w : World) (num_paths : Nat) (paths : List Buf) (k : Nat)
    (stdin cwd : List Char) (r : ReadResult)
    (h : read_command (w.stale k) (w.junk k) stdin = some r) :
    (r.cmd.status = status_value.NORMAL → r.pipe_index = 0 →
      first_token r.cmd = some changedir → 0 < w.fork_ret k 0 →
        (∀ t1 dir, r.cmd.tok.get? 1 = some (some t1) → cstring t1 = some dir →
          main_iteration w num_paths paths k stdin cwd =
            ([prompt w, Event.fork, Event.chdir (some dir), Event.wait],
              Ending.running r.stdin ((w.chdir cwd dir).getD cwd)) ∧
          ∀ n, main_loop w num_paths paths (n + 1) k stdin cwd =
            ([prompt w, Event.fork, Event.chdir (some dir), Event.wait] ++
                (main_loop w num_paths paths n (k + 1) r.stdin ((w.chdir cwd dir).getD cwd)).1,
              (main_loop w num_paths paths n (k + 1) r.stdin ((w.chdir cwd dir).getD cwd)).2)) ∧
        (r.cmd.tok.get? 1 = some none →
          main_iteration w num_paths paths k stdin cwd =
            ([prompt w, Event.fork, Event.chdir none, Event.wait],
              Ending.running r.stdin cwd))) ∧
      (¬ (r.cmd.status = status_value.NORMAL ∧ r.pipe_index = 0 ∧
            first_token r.cmd = some changedir ∧ 0 < w.fork_ret k 0) →
        ∀ stdin1 cwd1,
          (main_iteration w num_paths paths k stdin cwd).2 = Ending.running stdin1 cwd1 →
            cwd1 = cwd) := by
  constructor
  · intro hs hp hname h0
    obtain ⟨_, _, s, _, hr⟩ := read_command_normal h hs
    have hret : r.ret = 1 := by rw [hr]
    have hbr := main_branch_read r.pipe_index hname
    rw [← hret, hp] at hbr
    have hbr1 : main_branch r.ret r.cmd 0 = some Branch.single := by
      rw [hbr]; simp [changedir, exitKey]
    have a0 : ¬ w.fork_ret k 0 = 0 := by omega
    have b0 : ¬ w.fork_ret k 0 < 0 := by omega
    unfold first_token at hname
    split at hname
    · rename_i t0 ht0
      have key : ∀ t1 dir, r.cmd.tok.get? 1 = some (some t1) → cstring t1 = some dir →
          main_iteration w num_paths paths k stdin cwd =
            ([prompt w, Event.fork, Event.chdir (some dir), Event.wait],
              Ending.running r.stdin ((w.chdir cwd dir).getD cwd)) := by
        intro t1 dir ht1 hdir
        unfold main_iteration
        rw [h]
        simp only [hp, hbr1]
        unfold runCmd
        simp only [a0, b0, if_false, ht0, hname, if_true, ht1, hdir, resume, prompt]
        rcases w.chdir cwd dir with _ | d <;> rfl
      refine ⟨fun t1 dir ht1 hdir => ⟨key t1 dir ht1 hdir, fun n => ?_⟩, ?_⟩
      · exact main_loop_succ_running w num_paths paths n k stdin cwd _ _ _ (key t1 dir ht1 hdir)
      · intro ht1
        unfold main_iteration
        rw [h]
        simp only [hp, hbr1]
        unfold runCmd
        simp only [a0, b0, if_false, ht0, hname, if_true, ht1, resume, prompt]
    · cases hname
  · intro hnot stdin1 cwd1 he
    rcases main_iteration_cwd w num_paths paths k stdin cwd r h stdin1 cwd1 he with hc | ⟨hb, hc⟩
    · exact hc
    · obtain ⟨hret, hp⟩ := main_branch_single hb
      have hs : r.cmd.status = status_value.NORMAL := by
        by_contra hne
        exact hret ((read_command_inv h).2 hne)
      rw [hc]
      apply runCmd_frame
      intro t0 ht0 hname h0
      apply hnot
      refine ⟨hs, hp, ?_, h0⟩
      unfold first_token
      rw [ht0]
      exact hname

/-- Claim C16 at the line `cd /tmp` in a world where `/tmp` can be entered:
the session forks, changes to `/tmp`, waits, and loops on in `/tmp`. -/
theorem cd_changes_session_directory_witness :
    read_command (tmpWorld.stale 0) (tmpWorld.junk 0) "cd /tmp\n".toList = some cdTmpRead ∧
      main_iteration tmpWorld 0 [] 0 "cd /tmp\n".toList ['/'] =
        ([prompt tmpWorld, Event.fork, Event.chdir (some "/tmp".toList), Event.wait],
          Ending.running cdTmpRead.stdin ((tmpWorld.chdir ['/'] "/tmp".toList).getD ['/'])) ∧
      (tmpWorld.chdir ['/'] "/tmp".toList).getD ['/'] = "/tmp".toList :=
  ⟨by decide,
    (((cd_changes_session_directory tmpWorld 0 [] 0 "cd /tmp\n".toList ['/'] cdTmpRead
      (by decide)).1 (by decide) (by decide) (by decide) (by decide)).1
        ('/' :: 't' :: 'm' :: 'p' :: List.replicate 72 NUL) "/tmp".toList
        (by decide) (by decide)).1,
    by decide⟩

/-! ## The order of events in `run_pipe` -/

theorem execCmd_not_mem_attemptEvents (l : Launch) : Event.execCmd ∉ attemptEvents l := by
  cases l <;> simp [attemptEvents]

/-- A child of `run_pipe` calls the launcher once, before anything else. -/
theorem pipe_child_events (w : World) (num_paths : Nat) (paths : List Buf) (cmd : List Buf)
    (msg : String) :
    ∃ rest, (pipe_child w num_paths paths cmd msg).1 = Event.execCmd :: rest ∧
      Event.execCmd ∉ rest := by
  unfold pipe_child
  rcases execCmd w.execve num_paths paths (List.map some cmd) with a | a | a
  · exact ⟨_, rfl, execCmd_not_mem_attemptEvents _⟩
  · refine ⟨_, rfl, ?_⟩
    have := execCmd_not_mem_attemptEvents (Launch.returned a)
    simp [this]
  · exact ⟨_, rfl, execCmd_not_mem_attemptEvents _⟩

/-- Claim C20.  The process to which both `fork` calls of `run_pipe` return a
child makes exactly the calls `pipe`, `fork`, `fork`, `close (A[0])`,
`close (A[1])`, `wait`, `wait` in this order and returns.  The first child
calls `dup2 (A[1], 1)`, `close (A[0])`, `close (A[1])` and only then the
launcher; the second child calls `dup2 (A[0], 0)`, `close (A[0])`,
`close (A[1])` and only then the launcher; a child whose argument vector
cannot be built does not call the launcher at all. -/
theorem run_pipe_order (w : World) (k num_paths : Nat) (paths : List Buf) (p : Nat)
    (c : command) :
    (0 < w.fork_ret k 0 → 0 < w.fork_ret k 1 →
        run_pipe w k num_paths paths p c =
          ([Event.pipe, Event.fork, Event.fork, Event.close Fd.A0, Event.close Fd.A1,
              Event.wait, Event.wait], End.returned)) ∧
      (w.fork_ret k 0 = 0 →
        (∀ cmd, leftPipe (w.pipe_junk k) p c.tok = some cmd →
          ∃ rest, (run_pipe w k num_paths paths p c).1 =
              [Event.pipe, Event.fork, Event.dup2 Fd.A1 1, Event.close Fd.A0, Event.close Fd.A1,
                Event.execCmd] ++ rest ∧ Event.execCmd ∉ rest) ∧
        (leftPipe (w.pipe_junk k) p c.tok = none →
          Event.execCmd ∉ (run_pipe w k num_paths paths p c).1)) ∧
      (0 < w.fork_ret k 0 → w.fork_ret k 1 = 0 →
        (∀ cmd, rightPipe (w.pipe_junk k) p c.tok c.count = some cmd →
          ∃ rest, (run_pipe w k num_paths paths p c).1 =
              [Event.pipe, Event.fork, Event.fork, Event.dup2 Fd.A0 0, Event.close Fd.A0,
                Event.close Fd.A1, Event.execCmd] ++ rest ∧ Event.execCmd ∉ rest) ∧
        (rightPipe (w.pipe_junk k) p c.tok c.count = none →
          Event.execCmd ∉ (run_pipe w k num_paths paths p c).1)) := by
  refine ⟨run_pipe_parent w k num_paths paths p c, ?_, ?_⟩
  · intro h0
    constructor
    · intro cmd hcmd
      obtain ⟨rest, hrest, hnot⟩ := pipe_child_events w num_paths paths cmd "Error: Pipe in"
      refine ⟨rest, ?_, hnot⟩
      unfold run_pipe
      simp only [h0, if_true, hcmd, hrest]
      rfl
    · intro hnone
      unfold run_pipe
      simp [h0, hnone]
  · intro h0 h1
    have a0 : ¬ w.fork_ret k 0 = 0 := by omega
    have b0 : ¬ w.fork_ret k 0 < 0 := by omega
    constructor
    · intro cmd hcmd
      obtain ⟨rest, hrest, hnot⟩ := pipe_child_events w num_paths paths cmd "Error: Pipe out"
      refine ⟨rest, ?_, hnot⟩
      unfold run_pipe
      simp only [a0, b0, h1, if_true, if_false, hcmd, hrest]
      rfl
    · intro hnone
      unfold run_pipe
      simp [a0, b0, h1, hnone]

/-- Claim C20 at the line `a | b`: the parent in the quiet world, and the two
children with their calls up to the launcher. -/
theorem run_pipe_order_witness :
    ((0 : Int) < quietWorld.fork_ret 0 0 ∧ (0 : Int) < quietWorld.fork_ret 0 1) ∧
      run_pipe quietWorld 0 1 binPaths 1 cdTmpRead.cmd =
        ([Event.pipe, Event.fork, Event.fork, Event.close Fd.A0, Event.close Fd.A1,
            Event.wait, Event.wait], End.returned) ∧
      (main_iteration childWorld 1 binPaths 0 "a | b\n".toList []).1 =
        [prompt childWorld, Event.pipe, Event.fork, Event.dup2 Fd.A1 1, Event.close Fd.A0,
          Event.close Fd.A1, Event.execCmd] ∧
      (main_iteration secondChildWorld 1 binPaths 0 "a | b\n".toList []).1 =
        [prompt secondChildWorld, Event.pipe, Event.fork, Event.fork, Event.dup2 Fd.A0 0,
          Event.close Fd.A0, Event.close Fd.A1, Event.execCmd] :=
  ⟨⟨by decide, by decide⟩,
    (run_pipe_order quietWorld 0 1 binPaths 1 cdTmpRead.cmd).1 (by decide) (by decide),
    by decide, by decide⟩

/-! ## Children and failures on concrete lines -/

/-- Claim C13, evaluated.  The child of `run_cmd` for an unknown command `foo`
prints `foo: Command not found.` and exits with status 1.  The child for the
line `hack`, when `execve` of `/usr/bin/telnet` fails, calls `perror` and then
returns from `run_cmd`: the second pass of the loop of `main` runs in the child,
which prints a prompt of its own and is still running.  A child of a pipeline
hands `execve` an array without a terminating null pointer. -/
theorem hack_child_returns_to_loop :
    main_iteration childWorld 1 binPaths 0 "foo\n".toList [] =
        ([prompt childWorld, Event.fork, Event.execCmd,
            Event.execve "/bin/foo".toList ["foo".toList],
            Event.printf "%s: Command not found.\n" ["foo".toList], Event.exit 1],
          Ending.ended (End.exited 1)) ∧
      main_loop childWorld 1 binPaths 2 0 "hack\n".toList [] =
        ([prompt childWorld, Event.fork,
            Event.execve "/usr/bin/telnet".toList
              ["/usr/bin/telnet".toList, "towel.blinkenlights.nl".toList],
            Event.perror "telnet error\n", prompt childWorld],
          Ending.running [] []) ∧
      main_iteration childWorld 1 binPaths 0 "a | b\n".toList [] =
        ([prompt childWorld, Event.pipe, Event.fork, Event.dup2 Fd.A1 1, Event.close Fd.A0,
            Event.close Fd.A1, Event.execCmd],
          Ending.ended End.undefined) := by
  decide

/-- Claim C14, evaluated.  A failing first `fork` and a failing second `fork`
end the session with `perror` and `exit (EXIT_FAILURE)`.  The value `pipe`
returns is not looked at: with `pipe` returning -1 the parent forks twice,
closes, waits twice and goes back to the loop, and the first child redirects
and calls the launcher. -/
theorem run_pipe_ignores_pipe_failure :
    main_iteration noForkWorld 1 binPaths 0 "a | b\n".toList [] =
        ([prompt noForkWorld, Event.pipe, Event.fork, Event.perror "Error forking in pipe",
            Event.exit EXIT_FAILURE], Ending.ended (End.exited EXIT_FAILURE)) ∧
      main_iteration noSecondForkWorld 1 binPaths 0 "a | b\n".toList [] =
        ([prompt noSecondForkWorld, Event.pipe, Event.fork, Event.fork,
            Event.perror "Error forking second process", Event.exit EXIT_FAILURE],
          Ending.ended (End.exited EXIT_FAILURE)) ∧
      noPipeWorld.pipe_ret 0 = -1 ∧
      main_iteration noPipeWorld 1 binPaths 0 "a | b\n".toList [] =
        ([prompt noPipeWorld, Event.pipe, Event.fork, Event.fork, Event.close Fd.A0,
            Event.close Fd.A1, Event.wait, Event.wait], Ending.running [] []) ∧
      noPipeChildWorld.pipe_ret 0 = -1 ∧
      (main_iteration noPipeChildWorld 1 binPaths 0 "a | b\n".toList []).1 =
        [prompt noPipeChildWorld, Event.pipe, Event.fork, Event.dup2 Fd.A1 1, Event.close Fd.A0,
          Event.close Fd.A1, Event.execCmd] := by
  decide

/-- Claim C15, evaluated.  For the line `ls` with a blank in front of the
newline, on a zeroed heap, the status is `NORMAL`, the count 1 and `pipe_index`
0, but `tok[1]` points to a fresh block, so the argument vector has two entries,
`ls` and the empty string, and the child calls `execve` with both. -/
theorem trailing_blank_adds_argument :
    (read_command [] zeroJunk "ls \n".toList).map (fun r => r.cmd.status)
        = some status_value.NORMAL ∧
      (read_command [] zeroJunk "ls \n".toList).map (fun r => r.cmd.count) = some 1 ∧
      (read_command [] zeroJunk "ls \n".toList).map (fun r => r.pipe_index) = some 0 ∧
      words (stored_line "ls \n".toList) = ["ls".toList] ∧
      (read_command [] zeroJunk "ls \n".toList).bind (fun r => argvStrings r.cmd.tok)
        = some ["ls".toList, []] ∧
      main_iteration childWorld 1 binPaths 0 "ls \n".toList [] =
        ([prompt childWorld, Event.fork, Event.execCmd,
            Event.execve "/bin/ls".toList ["ls".toList, []],
            Event.printf "%s: Command not found.\n" ["ls".toList], Event.exit 1],
          Ending.ended (End.exited 1)) := by
  decide

/-- Claim C17, evaluated.  On a zeroed heap and with the 50 slots of `main`,
`getPaths` is defined for a first segment of 23 characters, for a later segment
of 48 characters and for 50 segments; a first segment of 24 characters, a later
segment of 49 characters and a 51st segment each take a write outside the
storage allocated for it. -/
theorem getPaths_leaves_its_storage :
    (getPaths zeroJunk 50 (List.replicate 23 'a')).map (fun r => r.1) = some 1 ∧
      getPaths zeroJunk 50 (List.replicate 24 'a') = none ∧
      (getPaths zeroJunk 50 (':' :: List.replicate 48 'a')).map (fun r => r.1) = some 2 ∧
      getPaths zeroJunk 50 (':' :: List.replicate 49 'a') = none ∧
      (getPaths zeroJunk 50 (List.replicate 49 ':')).map (fun r => r.1) = some 50 ∧
      getPaths zeroJunk 50 (List.replicate 50 ':') = none := by
  decide

/-- Claim C19, evaluated.  The line `ls |` is read with status `NORMAL`, count
2 and `pipe_index` 1, and `main` takes the arm of `run_pipe`; `leftPipe` gives
`ls`, `rightPipe` gives the empty array, and the second child redirects its
input and calls the launcher with it, where `tok[0]` is read outside the
array. -/
theorem pipe_with_empty_right_side :
    (read_command [] zeroJunk "ls |\n".toList).map (fun r => r.cmd.status)
        = some status_value.NORMAL ∧
      (read_command [] zeroJunk "ls |\n".toList).bind
        (fun r => main_branch r.ret r.cmd r.pipe_index) = some Branch.pipeline ∧
      (read_command [] zeroJunk "ls |\n".toList).bind
        (fun r => (leftPipe zeroJunk r.pipe_index r.cmd.tok).bind strings)
        = some ["ls".toList] ∧
      (read_command [] zeroJunk "ls |\n".toList).bind
        (fun r => rightPipe zeroJunk r.pipe_index r.cmd.tok r.cmd.count) = some [] ∧
      execCmd (fun _ _ => false) 1 binPaths [] = Launch.undefined [] ∧
      main_iteration secondChildWorld 1 binPaths 0 "ls |\n".toList [] =
        ([prompt secondChildWorld, Event.pipe, Event.fork, Event.fork, Event.dup2 Fd.A0 0,
            Event.close Fd.A0, Event.close Fd.A1, Event.execCmd],
          Ending.ended End.undefined) := by
  decide

end Shell
